import Mathlib

/-!
# A shallow embedding of the redzed reactive-automation core

This file embeds the parts of the `redzed` package that carry its central
invariants: the output-mutation primitive and reactive propagation engine
(`base_block.py`, `block.py`, `formula_trigger.py`), the event-dispatch
protocol (`block.py`), the initialization protocol (`initializers.py`,
`circuit.py`) and the circuit lifecycle state machine (`circuit.py`).

Modelling conventions:
* Python's `UNDEF` sentinel is `Option.none`; a legal output value is
  `some (pv : PVal)` where `PVal` distinguishes Python's `None` from numbers.
* Blocks and Formulas are unit ids `0 .. nUnits-1`; Triggers are ids
  `0 .. nTriggers-1`.  The static shape of a circuit (which unit is a
  Formula, the bound functions and their inputs, the per-block initializer
  lists and event handler tables) is an `RCircuit`; all mutable data lives
  in an `RState`.
* Exceptions are an `Except` whose error also carries the state at the
  raise point, because Python mutations performed before a raise survive it.
* The recursion in `Formula.evaluate` and nested `Block.event` dispatch is
  bounded by explicit fuel; exhausting fuel yields the artificial error
  `RErr.fuelOut`, which no Python code path corresponds to.
-/

/-- A legal (non-UNDEF) Python output value: either `None` or an integer. -/
inductive PVal where
  | vnone : PVal
  | vint : Int → PVal
  deriving Repr, DecidableEq

/-- `CircuitState` from circuit.py: the six lifecycle phases. -/
inductive CircuitState where
  | UNDER_CONSTRUCTION : CircuitState
  | INIT_CIRCUIT : CircuitState
  | INIT_BLOCKS : CircuitState
  | RUNNING : CircuitState
  | SHUTDOWN : CircuitState
  | CLOSED : CircuitState
  deriving Repr, DecidableEq

/-- The integer value of a `CircuitState` (`enum.IntEnum` in the source). -/
def CircuitState.toNat : CircuitState → Nat
  | .UNDER_CONSTRUCTION => 0
  | .INIT_CIRCUIT => 1
  | .INIT_BLOCKS => 2
  | .RUNNING => 3
  | .SHUTDOWN => 4
  | .CLOSED => 5

/-- The exceptions raised by the embedded code paths.
`fuelOut` is an artifact of the fuel-bounded embedding, not of the source. -/
inductive RErr where
  | valueUndef (u : Nat) : RErr               -- ValueError in BlockOrFormula._set_output
  | depLoop (f : Nat) : RErr                  -- RuntimeError in Formula.evaluate
  | reentrantEvent (b : Nat) (etype : String) : RErr  -- RuntimeError in Block.event
  | circuitShutDown : RErr                    -- CircuitShutDown in Block.event
  | unknownEvent (b : Nat) (etype : String) : RErr    -- UnknownEvent
  | handlerError (b : Nat) (etype : String) : RErr    -- an exception inside a handler
  | badIdentifier : RErr                      -- check_identifier failure
  | duplicateName (n : String) : RErr         -- ValueError in Circuit.rz_add_item
  | notAllowedAfterStart : RErr               -- RuntimeError in Circuit._check_not_started
  | circuitClosed : RErr                      -- RuntimeError in Circuit._check_not_started
  | notInitializedErr (n : String) : RErr     -- RuntimeError in Circuit._init_blocks
  | cannotReset : RErr                        -- RuntimeError in reset_circuit
  | fuelOut : RErr                            -- embedding artifact (recursion bound)
  deriving Repr, DecidableEq

/-- An event handler body, the actions the claims need:
return a value, set the block's output, raise, or re-dispatch an event
to the same block (the dispatch table of a concrete Block type). -/
inductive Handler where
  | hreturn (v : PVal) : Handler
  | hsetOutput (v : PVal) : Handler
  | hraise : Handler
  | hselfEvent (etype : String) : Handler
  deriving Repr, DecidableEq

/-- An initializer strategy (initializers.py), abstracted over where its
value comes from: a `SyncInitializer` whose `_get_init` yields a value,
yields UNDEF, or raises; or an `AsyncInitializer` whose `_async_get_init`
yields a value, yields UNDEF (or times out), or raises. -/
inductive RInit where
  | syncValue (v : PVal) : RInit
  | syncUndef : RInit
  | syncRaises : RInit
  | asyncValue (v : PVal) : RInit
  | asyncUndef : RInit
  | asyncRaises : RInit
  deriving Repr, DecidableEq

/-- Is the strategy an `AsyncInitializer`? (`isinstance(init, AsyncInitializer)`) -/
def RInit.isAsync : RInit → Bool
  | .asyncValue _ | .asyncUndef | .asyncRaises => true
  | _ => false

/-- An item passed to `Circuit.rz_add_item`. -/
inductive RItem where
  | blockItem (name : String) : RItem
  | formulaItem (name : String) : RItem
  | triggerItem : RItem
  deriving Repr, DecidableEq

/-- All mutable state of one circuit and its units. -/
structure RState where
  /-- current output per unit (`BlockOrFormula._output`); `none` is UNDEF -/
  out : List (Option PVal)
  /-- previous output per unit (`BlockOrFormula._output_prev`) -/
  prev : List (Option PVal)
  /-- per-formula `_evaluate_active` guard flag -/
  evalActive : List Bool
  /-- per-block: is an `_init_task` pending? -/
  initTask : List Bool
  /-- per-block `_etypes_active` set of event types in flight -/
  etypesActive : List (List String)
  /-- per-block, per-initializer `_applied` flags -/
  applied : List (List Bool)
  /-- per-trigger `_enabled` flag -/
  enabled : List Bool
  /-- log of trigger-function runs: trigger id and the outputs it observed -/
  fired : List (Nat × List (Option PVal))
  /-- `Circuit._state` -/
  phase : CircuitState
  /-- `Circuit._errors` -/
  errors : List RErr
  /-- `Circuit._blocks` registry (names, in registration order) -/
  blockNames : List String
  /-- number of registered triggers (`Circuit._triggers`) -/
  numTriggersReg : Nat
  deriving Repr, DecidableEq

/-- The static description of a circuit: unit kinds, bound functions and
their resolved inputs, initializer lists and dispatch tables. -/
structure RCircuit where
  nUnits : Nat
  nTriggers : Nat
  /-- is unit `u` a Formula (else a Block)? -/
  isFormula : Nat → Bool
  /-- the named inputs of formula `f`'s bound function, resolved to unit ids -/
  finputs : Nat → List Nat
  /-- formula `f`'s bound pure function over its input values -/
  ffun : Nat → List PVal → PVal
  /-- the named inputs of trigger `tr`'s bound function, resolved to unit ids -/
  tinputs : Nat → List Nat
  /-- per-block `always_trigger` flag -/
  alwaysTrigger : Nat → Bool
  /-- per-block ordered initializer list (`rz_initializers`) -/
  inits : Nat → List RInit
  /-- does the block type have an `rz_init` method? -/
  hasInit : Nat → Bool
  /-- per-block event dispatch table (`_edt_handlers`) -/
  handlers : Nat → String → Option Handler
  /-- the registered name of unit `u` -/
  bname : Nat → String

/-- The Formulas registered (by `Trigger.rz_pre_init` / `Formula.rz_pre_init`)
as dependents of unit `u`: every formula whose bound function takes `u`
as an input (`BlockOrFormula._dependent_formulas`). -/
def depF (c : RCircuit) (u : Nat) : List Nat :=
  (List.range c.nUnits).filter (fun f => c.isFormula f && (c.finputs f).contains u)

/-- The Triggers registered as dependents of unit `u`
(`BlockOrFormula._dependent_triggers`). -/
def depT (c : RCircuit) (u : Nat) : List Nat :=
  (List.range c.nTriggers).filter (fun tr => (c.tinputs tr).contains u)

/-- Python set union `a |= b`, with a deterministic order. -/
def listUnion (a b : List Nat) : List Nat :=
  a ++ b.filter (fun x => !a.contains x)

/-- The state carried by a result, whether it returned or raised. -/
def resultState {α : Type} : Except (RErr × RState) (α × RState) → RState
  | .error (_, s) => s
  | .ok (_, s) => s

/-- The state carried by a state-only result. -/
def resultStateU : Except (RErr × RState) RState → RState
  | .error (_, s) => s
  | .ok s => s

/-- The error carried by a result, if any. -/
def resultErr {α : Type} : Except (RErr × RState) (α × RState) → Option RErr
  | .error (e, _) => some e
  | .ok _ => none

/-- `BlockOrFormula.is_initialized`: the output is not UNDEF. -/
def BlockOrFormula.is_initialized (u : Nat) (s : RState) : Bool :=
  (s.out.getD u none).isSome

/-- Modelled from the spec: `is_undef` is called on blocks throughout
`circuit.py` and `initializers.py` but its definition is not present under
src; by §3's uninitialized-marker semantics it is the complement of
`is_initialized`: the unit's output still holds the UNDEF marker. -/
def BlockOrFormula.is_undef (u : Nat) (s : RState) : Bool :=
  s.out.getD u none = none

/-- `Circuit.after_shutdown`: are we past the `shutdown()` call? -/
def Circuit.after_shutdown (s : RState) : Bool :=
  CircuitState.SHUTDOWN.toNat ≤ s.phase.toNat

/-- Modelled from the spec: `Circuit.is_shut_down` is called by
`Block.rz_is_shut_down` but its definition is not present under src; the
spec says event delivery is rejected "once the Circuit has begun shutdown",
i.e. in the shutting-down or closed phase, which is `Circuit.after_shutdown`. -/
def Circuit.is_shut_down (s : RState) : Bool :=
  Circuit.after_shutdown s

/-- `Circuit._set_state`: a request to set a phase less than or equal to
the current one is silently ignored. -/
def Circuit.set_state (ns : CircuitState) (s : RState) : RState :=
  if ns.toNat ≤ s.phase.toNat then s else { s with phase := ns }

/-- `Circuit.shutdown`. -/
def Circuit.shutdown (s : RState) : RState :=
  if Circuit.after_shutdown s then s
  else if s.phase = .UNDER_CONSTRUCTION then Circuit.set_state .CLOSED s
  else Circuit.set_state .SHUTDOWN s

/-- `Circuit.abort`: record the error if new, and unless already shutting
down, request shutdown. -/
def Circuit.abort (e : RErr) (s : RState) : RState :=
  if e ∈ s.errors then s
  else
    let s1 : RState := { s with errors := s.errors ++ [e] }
    if Circuit.after_shutdown s1 then s1 else Circuit.shutdown s1

/-- `Circuit._check_not_started`: `none` means registration may proceed. -/
def Circuit.check_not_started (s : RState) : Option RErr :=
  if s.phase = .CLOSED then some .circuitClosed
  else if CircuitState.INIT_CIRCUIT.toNat < s.phase.toNat then some .notAllowedAfterStart
  else none

/-- `Circuit.rz_add_item`: add a Block, Formula or Trigger to the registry. -/
def Circuit.rz_add_item (it : RItem) (s : RState) : Except (RErr × RState) RState :=
  match Circuit.check_not_started s with
  | some e => .error (e, s)
  | none =>
    match it with
    | .triggerItem => .ok { s with numTriggersReg := s.numTriggersReg + 1 }
    | .blockItem n =>
      if s.blockNames.contains n then .error (.duplicateName n, s)
      else .ok { s with blockNames := s.blockNames ++ [n] }
    | .formulaItem n =>
      if s.blockNames.contains n then .error (.duplicateName n, s)
      else .ok { s with blockNames := s.blockNames ++ [n] }

/-- `reset_circuit`: allowed only under construction or closed; clears the
registries and error list (the phase of the torn-down circuit object is
not modified). -/
def Circuit.reset_circuit (s : RState) : Except (RErr × RState) RState :=
  if s.phase = .UNDER_CONSTRUCTION ∨ s.phase = .CLOSED then
    .ok { s with blockNames := [], numTriggersReg := 0, errors := [] }
  else .error (.cannotReset, s)

/-- `BlockOrFormula._set_output` (base_block.py): reject UNDEF, report
"unchanged" when the value equals the current output, otherwise record
previous and current. -/
def BlockOrFormula.set_output (u : Nat) (v : Option PVal) (s : RState) :
    Except (RErr × RState) (Bool × RState) :=
  match v with
  | none => .error (.valueUndef u, s)
  | some pv =>
    if some pv = s.out.getD u none then .ok (false, s)
    else .ok (true, { s with
      prev := s.prev.set u (s.out.getD u none),
      out := s.out.set u (some pv) })

/-- `_ExtFunction.run_function` for a Formula: call the bound function with
the current outputs of its inputs, or yield UNDEF if any input is UNDEF. -/
def runFormulaFunction (c : RCircuit) (f : Nat) (s : RState) : Option PVal :=
  let args := (c.finputs f).map (fun i => s.out.getD i none)
  if args.all Option.isSome then some (c.ffun f (args.map (fun o => o.getD .vnone)))
  else none

/-- The `for frm in self._dependent_formulas` loop shared by
`Formula.evaluate` and `Block._set_output`: evaluate each dependent formula
with the one-level-deeper evaluator `ev` and union the returned triggers
into the accumulator. -/
def Formula.evalDeps (ev : Nat → RState → Except (RErr × RState) (List Nat × RState)) :
    List Nat → List Nat → RState → Except (RErr × RState) (List Nat × RState)
  | [], acc, s => .ok (acc, s)
  | f :: fs', acc, s =>
    match ev f s with
    | .error e => .error e
    | .ok (ts, s') => Formula.evalDeps ev fs' (listUnion acc ts) s'

/-- `Formula.evaluate` (formula_trigger.py): cycle guard, run the bound
function, set the output, recursively evaluate dependent formulas and
return the union of affected triggers.  The recursion is bounded by fuel;
each nesting level of the Python recursion costs one unit. -/
def Formula.evaluate (c : RCircuit) : Nat → Nat → RState →
    Except (RErr × RState) (List Nat × RState)
  | 0, _, s => .error (.fuelOut, s)
  | fuel + 1, f, s =>
    if s.evalActive.getD f false then .error (.depLoop f, s)
    else
      match runFormulaFunction c f s with
      | none => .ok ([], s)
      | some pv =>
        match BlockOrFormula.set_output f (some pv) s with
        | .error e => .error e
        | .ok (false, s1) => .ok ([], s1)
        | .ok (true, s1) =>
          let s2 : RState := { s1 with evalActive := s1.evalActive.set f true }
          match Formula.evalDeps (Formula.evaluate c fuel) (depF c f) (depT c f) s2 with
          | .error e => .error e
          | .ok (trgs, s3) =>
            .ok (trgs, { s3 with evalActive := s3.evalActive.set f false })

/-- `Trigger.run`: if enabled, run the bound function with the current
outputs of the inputs (skipping the call when one is UNDEF); a run is
recorded in the `fired` log together with the outputs it observed. -/
def Trigger.runTrigger (c : RCircuit) (tr : Nat) (s : RState) : RState :=
  if s.enabled.getD tr false then
    if (c.tinputs tr).all (fun i => (s.out.getD i none).isSome) then
      { s with fired := s.fired ++ [(tr, s.out)] }
    else s
  else s

/-- The propagation tail of `Block._set_output`: collect the dependent
triggers, evaluate the dependent formulas, then run every affected trigger. -/
def Block.propagateFrom (c : RCircuit) (fuel : Nat) (u : Nat) (s : RState) :
    Except (RErr × RState) (Bool × RState) :=
  match Formula.evalDeps (Formula.evaluate c fuel) (depF c u) (depT c u) s with
  | .error e => .error e
  | .ok (trgs, s1) => .ok (true, trgs.foldl (fun st tr => Trigger.runTrigger c tr st) s1)

/-- The `_init_task` cancellation at the top of `Block._set_output`. -/
def Block.cancelInitTask (u : Nat) (s : RState) : RState :=
  if s.out.getD u none = none && s.initTask.getD u false then
    { s with initTask := s.initTask.set u false }
  else s

/-- `Block._set_output` (block.py): cancel a pending initializer task, set
the output via the base primitive, honour `always_trigger`, recalculate
dependent formulas and run affected triggers. -/
def Block.set_output (c : RCircuit) (fuel : Nat) (u : Nat) (v : Option PVal)
    (s : RState) : Except (RErr × RState) (Bool × RState) :=
  match BlockOrFormula.set_output u v (Block.cancelInitTask u s) with
  | .error e => .error e
  | .ok (changed, s1) =>
    if changed then Block.propagateFrom c fuel u s1
    else if c.alwaysTrigger u then
      match v with
      | some pv => Block.propagateFrom c fuel u { s1 with prev := s1.prev.set u (some pv) }
      | none => .ok (false, s1)
    else .ok (false, s1)

/-- `Memory.rz_init` (blocklib/inputs.py, validator absent): store the
initialization value through `Block._set_output`.  This is the concrete
`rz_init` hook the spec's initialization contract assumes: the strategy's
value becomes the Block's output. -/
def Memory.rz_init (c : RCircuit) (fuel : Nat) (b : Nat) (v : PVal) (s : RState) :
    Except (RErr × RState) RState :=
  match Block.set_output c fuel b (some v) s with
  | .error e => .error e
  | .ok (_, s') => .ok s'

/-- Read the per-initializer `_applied` flag of initializer `i` of block `b`. -/
def SyncInitializer.appliedFlag (b i : Nat) (s : RState) : Bool :=
  (s.applied.getD b []).getD i false

/-- Set the per-initializer `_applied` flag. -/
def SyncInitializer.markApplied (b i : Nat) (s : RState) : RState :=
  { s with applied := s.applied.set b ((s.applied.getD b []).set i true) }

/-- `SyncInitializer.apply_to` (initializers.py): at-most-once application;
a raising `_get_init` or one yielding UNDEF is logged and skipped; a value
is applied through `rz_init`, whose own exceptions are also logged and
swallowed. -/
def SyncInitializer.apply_to (c : RCircuit) (fuel : Nat) (b i : Nat) (init : RInit)
    (s : RState) : RState :=
  if SyncInitializer.appliedFlag b i s then s
  else
    let s1 := SyncInitializer.markApplied b i s
    match init with
    | .syncValue v => resultStateU (Memory.rz_init c fuel b v s1)
    | _ => s1

/-- `AsyncInitializer.async_apply_to` (initializers.py): at-most-once;
a raising or timing-out `_async_get_init`, or one yielding UNDEF, is
skipped; a value is dropped if the block was initialized in the meantime,
otherwise applied through `rz_init` (whose exceptions are not caught here). -/
def AsyncInitializer.async_apply_to (c : RCircuit) (fuel : Nat) (b i : Nat)
    (init : RInit) (s : RState) : Except (RErr × RState) RState :=
  if SyncInitializer.appliedFlag b i s then .ok s
  else
    let s1 := SyncInitializer.markApplied b i s
    match init with
    | .asyncValue v =>
      if BlockOrFormula.is_undef b s1 then Memory.rz_init c fuel b v s1 else .ok s1
    | _ => .ok s1

/-- `Block.rz_init_default` (block.py): set the output to `None` for a
still-uninitialized block whose type has no `rz_init` method. -/
def Block.rz_init_default (c : RCircuit) (fuel : Nat) (b : Nat) (s : RState) :
    Except (RErr × RState) RState :=
  if BlockOrFormula.is_undef b s && !(c.hasInit b) then
    match Block.set_output c fuel b (some .vnone) s with
    | .error e => .error e
    | .ok (_, s') => .ok s'
  else .ok s

/-- The loop of `Circuit._init_block_core` over the indexed initializer
list: stop as soon as the block has a value; apply sync initializers
inline; async initializers are yielded to the caller — the sync driver
(`init_block_sync`) ignores them, the async driver
(`init_block_async`) awaits `async_apply_to`. -/
def Circuit.initBlockAux (c : RCircuit) (fuel : Nat) (b : Nat) (withAsync : Bool) :
    List (Nat × RInit) → RState → Except (RErr × RState) RState
  | [], s => .ok s
  | (i, init) :: rest, s =>
    if !(BlockOrFormula.is_undef b s) then .ok s
    else if init.isAsync then
      if withAsync then
        match AsyncInitializer.async_apply_to c fuel b i init s with
        | .error e => .error e
        | .ok s' => Circuit.initBlockAux c fuel b withAsync rest s'
      else Circuit.initBlockAux c fuel b withAsync rest s
    else Circuit.initBlockAux c fuel b withAsync rest
      (SyncInitializer.apply_to c fuel b i init s)

/-- `Circuit._init_block_core` driven to completion: the initializer loop
followed by the built-in default initializer for a block still without
a value (every Block has the `rz_init_default` method). -/
def Circuit.initBlockCore (c : RCircuit) (fuel : Nat) (b : Nat) (withAsync : Bool)
    (s : RState) : Except (RErr × RState) RState :=
  match Circuit.initBlockAux c fuel b withAsync (c.inits b).enum s with
  | .error e => .error e
  | .ok s' =>
    if BlockOrFormula.is_undef b s' then Block.rz_init_default c fuel b s' else .ok s'

/-- `Circuit.init_block_sync`: initialize a Block excluding async
initializers. -/
def Circuit.init_block_sync (c : RCircuit) (fuel : Nat) (b : Nat) (s : RState) :
    Except (RErr × RState) RState :=
  Circuit.initBlockCore c fuel b false s

/-- `Circuit.init_block_async`: initialize a Block including async
initializers. -/
def Circuit.init_block_async (c : RCircuit) (fuel : Nat) (b : Nat) (s : RState) :
    Except (RErr × RState) RState :=
  Circuit.initBlockCore c fuel b true s

/-- Initialize the blocks of a list one after the other.  The async group
of `Circuit._init_blocks` is modelled sequentially: under the cooperative
scheduler each block's own job applies that block's initializers in list
order, and no job touches another Block's output (propagation recomputes
only Formulas), so per-block outcomes match the concurrent source. -/
def Circuit.initList (c : RCircuit) (fuel : Nat) (withAsync : Bool) :
    List Nat → RState → Except (RErr × RState) RState
  | [], s => .ok s
  | b :: bs, s =>
    match Circuit.initBlockCore c fuel b withAsync s with
    | .error e => .error e
    | .ok s' => Circuit.initList c fuel withAsync bs s'

/-- The two initialization passes of `Circuit._init_blocks`: blocks with
only sync initializers first, then blocks with at least one async
initializer. -/
def Circuit.initPasses (c : RCircuit) (fuel : Nat) (blockIds : List Nat)
    (s : RState) : Except (RErr × RState) RState :=
  let uninit := blockIds.filter (fun b => BlockOrFormula.is_undef b s)
  let syncIds := uninit.filter (fun b => !(c.inits b).any RInit.isAsync)
  let asyncIds := uninit.filter (fun b => (c.inits b).any RInit.isAsync)
  match Circuit.initList c fuel false syncIds s with
  | .error e => .error e
  | .ok s1 => Circuit.initList c fuel true asyncIds s1

/-- `Circuit._init_blocks`: the two passes followed by the final check,
which raises for the first block still without a value. -/
def Circuit.initBlocks (c : RCircuit) (fuel : Nat) (blockIds : List Nat)
    (s : RState) : Except (RErr × RState) RState :=
  match Circuit.initPasses c fuel blockIds s with
  | .error e => .error e
  | .ok s1 =>
    match blockIds.find? (fun b => BlockOrFormula.is_undef b s1) with
    | some b => .error (.notInitializedErr (c.bname b), s1)
    | none => .ok s1

/-- `check_identifier` (utils/data_utils.py) for the ASCII identifiers the
claims use: nonempty, a letter or underscore first, alphanumeric or
underscore afterwards. -/
def checkIdentOk (etype : String) : Bool :=
  match etype.toList with
  | [] => false
  | ch :: rest =>
    (ch.isAlpha || ch = '_') && rest.all (fun d => d.isAlphanum || d = '_')

/-- `etype.startswith('_get_')`: is the event type a read-only
introspection event?  (A list-based embedding of the string test.) -/
def startsWithGet (etype : String) : Bool :=
  etype.toList.take 5 = ['_', 'g', 'e', 't', '_']

/-- `self._etypes_active.add(etype)`. -/
def Block.addActive (b : Nat) (etype : String) (s : RState) : RState :=
  { s with etypesActive := s.etypesActive.set b (etype :: s.etypesActive.getD b []) }

/-- `self._etypes_active.remove(etype)`. -/
def Block.removeActive (b : Nat) (etype : String) (s : RState) : RState :=
  { s with etypesActive := s.etypesActive.set b ((s.etypesActive.getD b []).erase etype) }

/-- The body of `Block.event`'s `try` block: on-demand synchronous
initialization, then the dispatch-table lookup and the handler call
(an absent entry reaches `_default_event_handler`, which raises
`UnknownEvent`).  `ev` is the one-level-deeper event entry point used by
handlers that re-dispatch an event. -/
def Block.eventMain (c : RCircuit)
    (ev : Nat → String → RState → Except (RErr × RState) (PVal × RState))
    (fuel b : Nat) (etype : String) (s : RState) :
    Except (RErr × RState) (PVal × RState) :=
  match (if !(BlockOrFormula.is_initialized b s) then
           Circuit.init_block_sync c fuel b s
         else .ok s) with
  | .error e => .error e
  | .ok s1 =>
    match c.handlers b etype with
    | none => .error (.unknownEvent b etype, s1)
    | some .hraise => .error (.handlerError b etype, s1)
    | some (.hreturn v) => .ok (v, s1)
    | some (.hsetOutput v) =>
      match Block.set_output c fuel b (some v) s1 with
      | .error e => .error e
      | .ok (_, s2) => .ok (.vnone, s2)
    | some (.hselfEvent et2) => ev b et2 s1

/-- The admitted-delivery path of `Block.event`: the re-entrancy guard
(which aborts the circuit and raises), then the guarded body with the
`finally` that removes the event type from the in-flight set. -/
def Block.eventAdmitted (c : RCircuit)
    (ev : Nat → String → RState → Except (RErr × RState) (PVal × RState))
    (fuel b : Nat) (etype : String) (s : RState) :
    Except (RErr × RState) (PVal × RState) :=
  if (s.etypesActive.getD b []).contains etype then
    .error (.reentrantEvent b etype, Circuit.abort (.reentrantEvent b etype) s)
  else
    match Block.eventMain c ev fuel b etype (Block.addActive b etype s) with
    | .ok (v, s2) => .ok (v, Block.removeActive b etype s2)
    | .error (e, s2) => .error (e, Block.removeActive b etype s2)

/-- `Block.event` (block.py): validate the event type, reject non-`_get_`
events after shutdown, then deliver through the admitted path.  Nested
dispatch is bounded by fuel; each nesting level costs one unit. -/
def Block.event (c : RCircuit) : Nat → Nat → String → RState →
    Except (RErr × RState) (PVal × RState)
  | 0, _, _, s => .error (.fuelOut, s)
  | fuel + 1, b, etype, s =>
    if !checkIdentOk etype then .error (.badIdentifier, s)
    else if !startsWithGet etype && Circuit.is_shut_down s then
      .error (.circuitShutDown, s)
    else Block.eventAdmitted c (Block.event c fuel) fuel b etype s

/-- The operations the lifecycle claims quantify over: state-setting by the
runner, shutdown, abort and reset. -/
inductive ROp where
  | opSetState (ns : CircuitState) : ROp
  | opShutdown : ROp
  | opAbort (e : RErr) : ROp
  | opReset : ROp
  deriving Repr, DecidableEq

/-- Apply one lifecycle operation (a failed reset keeps its state). -/
def applyOp (s : RState) : ROp → RState
  | .opSetState ns => Circuit.set_state ns s
  | .opShutdown => Circuit.shutdown s
  | .opAbort e => Circuit.abort e s
  | .opReset => resultStateU (Circuit.reset_circuit s)

/-- The phases observed while running a sequence of lifecycle operations. -/
def phaseTrace (s : RState) (ops : List ROp) : List CircuitState :=
  (ops.scanl applyOp s).map RState.phase

/-- The diamond circuit of the spec's §8 scenario: Block A (unit 0) feeding
Formulas F1 = `g1` of A (unit 1) and F2 = `g2` of A (unit 2), both feeding
the single Trigger T (trigger 0). -/
def diamondC (g1 g2 : Int → Int) : RCircuit where
  nUnits := 3
  nTriggers := 1
  isFormula := fun u => u == 1 || u == 2
  finputs := fun u => if u == 1 || u == 2 then [0] else []
  ffun := fun u args =>
    match u, args with
    | 1, [.vint a] => .vint (g1 a)
    | 2, [.vint a] => .vint (g2 a)
    | _, _ => .vnone
  tinputs := fun _ => [1, 2]
  alwaysTrigger := fun _ => false
  inits := fun _ => []
  hasInit := fun _ => false
  handlers := fun _ _ => none
  bname := fun u => if u == 0 then "A" else if u == 1 then "F1" else "F2"

/-- The diamond circuit pre-initialized consistently at A = `a0`, with the
trigger enabled and the circuit running. -/
def diamondS (g1 g2 : Int → Int) (a0 : Int) : RState where
  out := [some (.vint a0), some (.vint (g1 a0)), some (.vint (g2 a0))]
  prev := [none, none, none]
  evalActive := [false, false, false]
  initTask := [false, false, false]
  etypesActive := [[], [], []]
  applied := [[], [], []]
  enabled := [true]
  fired := []
  phase := .RUNNING
  errors := []
  blockNames := ["A", "F1", "F2"]
  numTriggersReg := 1

/-- A two-formula dependency cycle: formulas 0 and 1 each take the other
as input, so each is a dependent formula of the other. -/
def cycleC : RCircuit where
  nUnits := 2
  nTriggers := 0
  isFormula := fun _ => true
  finputs := fun f => if f == 0 then [1] else [0]
  ffun := fun _ args => match args with | [.vint a] => .vint (a + 1) | _ => .vnone
  tinputs := fun _ => []
  alwaysTrigger := fun _ => false
  inits := fun _ => []
  hasInit := fun _ => false
  handlers := fun _ _ => none
  bname := fun u => if u == 0 then "G" else "H"

/-- The cyclic circuit pre-initialized with both outputs 0, running. -/
def cycleS : RState where
  out := [some (.vint 0), some (.vint 0)]
  prev := [none, none]
  evalActive := [false, false]
  initTask := [false, false]
  etypesActive := [[], []]
  applied := [[], []]
  enabled := []
  fired := []
  phase := .RUNNING
  errors := []
  blockNames := ["G", "H"]
  numTriggersReg := 0

/-- Two Blocks `x` and `y` whose only initializer strategy raises, and
whose type has `rz_init` (so the built-in default initializer is inert). -/
def twoFailC : RCircuit where
  nUnits := 2
  nTriggers := 0
  isFormula := fun _ => false
  finputs := fun _ => []
  ffun := fun _ _ => .vnone
  tinputs := fun _ => []
  alwaysTrigger := fun _ => false
  inits := fun _ => [.syncRaises]
  hasInit := fun _ => true
  handlers := fun _ _ => none
  bname := fun u => if u == 0 then "x" else "y"

/-- Both blocks of `twoFailC` uninitialized, circuit in the
initializing-units phase. -/
def twoFailS : RState where
  out := [none, none]
  prev := [none, none]
  evalActive := [false, false]
  initTask := [false, false]
  etypesActive := [[], []]
  applied := [[false], [false]]
  enabled := []
  fired := []
  phase := .INIT_BLOCKS
  errors := []
  blockNames := ["x", "y"]
  numTriggersReg := 0

/-- One Block whose initializer list is [fails, fails, succeeds-with-0]. -/
def c5C : RCircuit where
  nUnits := 1
  nTriggers := 0
  isFormula := fun _ => false
  finputs := fun _ => []
  ffun := fun _ _ => .vnone
  tinputs := fun _ => []
  alwaysTrigger := fun _ => false
  inits := fun _ => [.syncRaises, .syncRaises, .syncValue (.vint 0)]
  hasInit := fun _ => true
  handlers := fun _ _ => none
  bname := fun _ => "blk"

/-- The `c5C` block uninitialized, circuit in the initializing-units phase. -/
def c5S : RState where
  out := [none]
  prev := [none]
  evalActive := [false]
  initTask := [false]
  etypesActive := [[]]
  applied := [[false, false, false]]
  enabled := []
  fired := []
  phase := .INIT_BLOCKS
  errors := []
  blockNames := ["blk"]
  numTriggersReg := 0

/-- One Block with a small dispatch table exercising the event paths:
an ordinary handler, a raising handler, a handler re-dispatching its own
event type, and a read-only introspection handler. -/
def eventC : RCircuit where
  nUnits := 1
  nTriggers := 0
  isFormula := fun _ => false
  finputs := fun _ => []
  ffun := fun _ _ => .vnone
  tinputs := fun _ => []
  alwaysTrigger := fun _ => false
  inits := fun _ => []
  hasInit := fun _ => true
  handlers := fun _ et =>
    if et = "ping" then some (.hreturn (.vint 7))
    else if et = "boom" then some .hraise
    else if et = "selfping" then some (.hselfEvent "selfping")
    else if et = "_get_output" then some (.hreturn .vnone)
    else none
  bname := fun _ => "b"

/-- The `eventC` block initialized with output 5, in a given phase. -/
def eventS (ph : CircuitState) : RState where
  out := [some (.vint 5)]
  prev := [none]
  evalActive := [false]
  initTask := [false]
  etypesActive := [[]]
  applied := [[]]
  enabled := []
  fired := []
  phase := ph
  errors := []
  blockNames := ["b"]
  numTriggersReg := 0

/-- A minimal state for exercising the registry and lifecycle operations. -/
def regS (ph : CircuitState) (names : List String) : RState where
  out := []
  prev := []
  evalActive := []
  initTask := []
  etypesActive := []
  applied := []
  enabled := []
  fired := []
  phase := ph
  errors := []
  blockNames := names
  numTriggersReg := 0


theorem phase_mono_set_state (ns : CircuitState) (s : RState) :
    s.phase.toNat ≤ (Circuit.set_state ns s).phase.toNat := by
  unfold Circuit.set_state
  split
  · exact Nat.le_refl _
  · next h => exact Nat.le_of_not_le h

theorem phase_mono_shutdown (s : RState) :
    s.phase.toNat ≤ (Circuit.shutdown s).phase.toNat := by
  unfold Circuit.shutdown
  split
  · exact Nat.le_refl _
  · split <;> exact phase_mono_set_state _ _

theorem phase_mono_abort (e : RErr) (s : RState) :
    s.phase.toNat ≤ (Circuit.abort e s).phase.toNat := by
  unfold Circuit.abort
  split
  · exact Nat.le_refl _
  · simp only []
    split
    · exact Nat.le_refl _
    · exact phase_mono_shutdown { s with errors := s.errors ++ [e] }

theorem phase_mono_reset (s : RState) :
    s.phase.toNat ≤ (resultStateU (Circuit.reset_circuit s)).phase.toNat := by
  unfold Circuit.reset_circuit
  split <;> exact Nat.le_refl _

theorem phase_mono_applyOp (s : RState) (op : ROp) :
    s.phase.toNat ≤ (applyOp s op).phase.toNat := by
  cases op with
  | opSetState ns => exact phase_mono_set_state ns s
  | opShutdown => exact phase_mono_shutdown s
  | opAbort e => exact phase_mono_abort e s
  | opReset => exact phase_mono_reset s

theorem phaseTrace_head (s : RState) (ops : List ROp) :
    (phaseTrace s ops).head? = some s.phase := by
  cases ops <;> rfl

theorem chain_phaseTrace (ops : List ROp) :
    ∀ s : RState, List.Chain' (fun a b : CircuitState => a.toNat ≤ b.toNat)
      (phaseTrace s ops) := by
  induction ops with
  | nil => intro s; simp [phaseTrace]
  | cons op rest ih =>
    intro s
    have hstep : phaseTrace s (op :: rest) = s.phase :: phaseTrace (applyOp s op) rest := by
      simp [phaseTrace, List.scanl]
    rw [hstep]
    refine List.chain'_cons'.mpr ⟨?_, ih (applyOp s op)⟩
    intro h hh
    rw [phaseTrace_head] at hh
    cases hh
    exact phase_mono_applyOp s op

/-- C2: for every circuit and every sequence of the lifecycle operations
(state-setting by the runner, shutdown, abort, reset), the observed phase
values never decrease and range over the six defined phases in increasing
order; in particular `Circuit._set_state` ignores any request to set a
phase less than or equal to the current one. -/
theorem claim_C2_phase_monotone :
    (∀ (s : RState) (ops : List ROp),
      List.Chain' (fun a b : CircuitState => a.toNat ≤ b.toNat) (phaseTrace s ops))
    ∧ (∀ (ns : CircuitState) (s : RState), ns.toNat ≤ s.phase.toNat →
        Circuit.set_state ns s = s)
    ∧ (∀ st : CircuitState,
        st ∈ [CircuitState.UNDER_CONSTRUCTION, CircuitState.INIT_CIRCUIT,
          CircuitState.INIT_BLOCKS, CircuitState.RUNNING,
          CircuitState.SHUTDOWN, CircuitState.CLOSED]) := by
  refine ⟨fun s ops => chain_phaseTrace ops s, fun ns s h => ?_, fun st => ?_⟩
  · unfold Circuit.set_state
    simp [h]
  · cases st <;> simp

/-- Witness for C2 at a concrete trace and a concrete ignored request. -/
theorem claim_C2_witness :
    List.Chain' (fun a b : CircuitState => a.toNat ≤ b.toNat)
      (phaseTrace (regS .UNDER_CONSTRUCTION []) [.opShutdown, .opAbort .cannotReset])
    ∧ (CircuitState.INIT_CIRCUIT.toNat ≤ (regS .RUNNING []).phase.toNat
        ∧ Circuit.set_state .INIT_CIRCUIT (regS .RUNNING []) = regS .RUNNING []) :=
  ⟨claim_C2_phase_monotone.1 (regS .UNDER_CONSTRUCTION []) [.opShutdown, .opAbort .cannotReset],
   by decide,
   claim_C2_phase_monotone.2.1 .INIT_CIRCUIT (regS .RUNNING []) (by decide)⟩

/-- C4 counterexample: with the circuit in the `INIT_CIRCUIT` phase — i.e.
after it has left the under-construction phase — registering a fresh unit
still succeeds (`Circuit._check_not_started` explicitly allows adding
special blocks in the `INIT_CIRCUIT` state), contradicting the claim that
registering any unit after the circuit has left its under-construction
phase fails with a phase error. -/
theorem claim_C4_counterexample :
    (regS .INIT_CIRCUIT ["a"]).phase ≠ CircuitState.UNDER_CONSTRUCTION
    ∧ Circuit.rz_add_item (.blockItem "b") (regS .INIT_CIRCUIT ["a"])
      = .ok { regS .INIT_CIRCUIT ["a"] with blockNames := ["a", "b"] } := by
  exact ⟨by decide, rfl⟩

/-- C4 (amended): registering a Block or Formula whose name is already
registered fails with a duplicate-name error and leaves the registry
unchanged; registering any unit after the circuit has left the
initializing-circuit phase fails with a phase error (a closed-circuit
error when the circuit is closed). -/
theorem claim_C4_register :
    (∀ (s : RState) (n : String), Circuit.check_not_started s = none →
      s.blockNames.contains n = true →
      Circuit.rz_add_item (.blockItem n) s = .error (.duplicateName n, s)
      ∧ Circuit.rz_add_item (.formulaItem n) s = .error (.duplicateName n, s))
    ∧ (∀ (s : RState) (it : RItem), s.phase ≠ .CLOSED →
        CircuitState.INIT_CIRCUIT.toNat < s.phase.toNat →
        Circuit.rz_add_item it s = .error (.notAllowedAfterStart, s))
    ∧ (∀ (s : RState) (it : RItem), s.phase = .CLOSED →
        Circuit.rz_add_item it s = .error (.circuitClosed, s)) := by
  refine ⟨fun s n hok hdup => ?_, fun s it hnc hgt => ?_, fun s it hc => ?_⟩
  · unfold Circuit.rz_add_item
    rw [hok]
    simp at hdup
    simp [hdup]
  · unfold Circuit.rz_add_item Circuit.check_not_started
    simp [hnc, hgt]
  · unfold Circuit.rz_add_item Circuit.check_not_started
    simp [hc]

/-- Witness for C4 at concrete registry states. -/
theorem claim_C4_witness :
    (Circuit.check_not_started (regS .UNDER_CONSTRUCTION ["a"]) = none
      ∧ (regS .UNDER_CONSTRUCTION ["a"]).blockNames.contains "a" = true
      ∧ Circuit.rz_add_item (.blockItem "a") (regS .UNDER_CONSTRUCTION ["a"])
          = .error (.duplicateName "a", regS .UNDER_CONSTRUCTION ["a"]))
    ∧ ((regS .RUNNING []).phase ≠ CircuitState.CLOSED
      ∧ CircuitState.INIT_CIRCUIT.toNat < (regS .RUNNING []).phase.toNat
      ∧ Circuit.rz_add_item .triggerItem (regS .RUNNING [])
          = .error (.notAllowedAfterStart, regS .RUNNING []))
    ∧ Circuit.rz_add_item .triggerItem (regS .CLOSED [])
        = .error (.circuitClosed, regS .CLOSED []) :=
  ⟨⟨by decide, by decide,
    (claim_C4_register.1 (regS .UNDER_CONSTRUCTION ["a"]) "a" (by decide) (by decide)).1⟩,
   ⟨by decide, by decide,
    claim_C4_register.2.1 (regS .RUNNING []) .triggerItem (by decide) (by decide)⟩,
   claim_C4_register.2.2 (regS .CLOSED []) .triggerItem (by decide)⟩


/-- Helper: `getD` after `set` at the same in-range index. -/
theorem getD_set_self {α : Type} (l : List α) (u : Nat) (a d : α) (h : u < l.length) :
    (l.set u a).getD u d = a := by
  simp [List.getD_eq_getElem?_getD, List.getElem?_set_eq_of_lt, h]

/-- Helper: `getD` after `set` at a different index. -/
theorem getD_set_ne {α : Type} (l : List α) (u v : Nat) (a d : α) (h : u ≠ v) :
    (l.set u a).getD v d = l.getD v d := by
  simp [List.getD_eq_getElem?_getD, List.getElem?_set_ne h]

/-- C3: a delivered event type that does not carry the `_get_` introspection
prefix raises the circuit-shut-down error exactly when the circuit is in the
shutting-down or closed phase; otherwise (and for `_get_`-prefixed types at
any time) delivery is not rejected on this ground and proceeds into the
admitted-delivery path that performs the handler lookup. -/
theorem claim_C3_shutdown_gate :
    ∀ (c : RCircuit) (fuel b : Nat) (etype : String) (s : RState),
      checkIdentOk etype = true →
      ((startsWithGet etype = false ∧ Circuit.is_shut_down s = true →
         Block.event c (fuel + 1) b etype s = .error (.circuitShutDown, s))
      ∧ (startsWithGet etype = true ∨ Circuit.is_shut_down s = false →
         Block.event c (fuel + 1) b etype s
           = Block.eventAdmitted c (Block.event c fuel) fuel b etype s)) := by
  intro c fuel b etype s hid
  constructor
  · rintro ⟨hg, hsd⟩
    rw [Block.event]
    simp [hid, hg, hsd]
  · intro h
    rw [Block.event]
    rcases h with hg | hsd
    · simp [hid, hg]
    · simp [hid, hsd]

/-- C9: the output-setting operation rejects the UNDEF marker with an error
while leaving output and previous output unchanged; with a value equal to
the current output it is a no-op returning "unchanged" on a unit without
`always_trigger`, while on an always-notify unit it records the value as
both current and previous output and proceeds with propagation as if the
value had changed. -/
theorem claim_C9_set_output :
    (∀ (u : Nat) (s : RState),
      BlockOrFormula.set_output u none s = .error (.valueUndef u, s))
    ∧ (∀ (c : RCircuit) (fuel u : Nat) (s : RState),
        Block.set_output c fuel u none s
          = .error (.valueUndef u, Block.cancelInitTask u s)
        ∧ (Block.cancelInitTask u s).out = s.out
        ∧ (Block.cancelInitTask u s).prev = s.prev)
    ∧ (∀ (c : RCircuit) (fuel u : Nat) (pv : PVal) (s : RState),
        s.out.getD u none = some pv → c.alwaysTrigger u = false →
        Block.set_output c fuel u (some pv) s = .ok (false, s))
    ∧ (∀ (c : RCircuit) (fuel u : Nat) (pv : PVal) (s : RState),
        s.out.getD u none = some pv → c.alwaysTrigger u = true →
        Block.set_output c fuel u (some pv) s
          = Block.propagateFrom c fuel u { s with prev := s.prev.set u (some pv) }
        ∧ ({ s with prev := s.prev.set u (some pv) }).out.getD u none = some pv
        ∧ (u < s.prev.length →
            ({ s with prev := s.prev.set u (some pv) }).prev.getD u none = some pv)) := by
  refine ⟨fun u s => rfl, fun c fuel u s => ?_, fun c fuel u pv s hcur halw => ?_,
    fun c fuel u pv s hcur halw => ?_⟩
  · refine ⟨rfl, ?_, ?_⟩ <;> (unfold Block.cancelInitTask; split <;> rfl)
  · have hcur' : s.out[u]?.getD none = some pv := by
      simpa [List.getD_eq_getElem?_getD] using hcur
    have hct : Block.cancelInitTask u s = s := by
      simp [Block.cancelInitTask, hcur']
    unfold Block.set_output
    rw [hct]
    unfold BlockOrFormula.set_output
    simp [hcur', halw]
  · have hcur' : s.out[u]?.getD none = some pv := by
      simpa [List.getD_eq_getElem?_getD] using hcur
    have hct : Block.cancelInitTask u s = s := by
      simp [Block.cancelInitTask, hcur']
    refine ⟨?_, by simpa using hcur, fun hu => getD_set_self _ _ _ _ hu⟩
    unfold Block.set_output
    rw [hct]
    unfold BlockOrFormula.set_output
    simp [hcur', halw]

/-- `eventC` with the `always_trigger` flag set on its block. -/
def alwaysC : RCircuit := { eventC with alwaysTrigger := fun _ => true }

/-- Witness for C3 on the concrete one-block circuit. -/
theorem claim_C3_witness :
    (checkIdentOk "ping" = true
      ∧ startsWithGet "ping" = false
      ∧ Circuit.is_shut_down (eventS .SHUTDOWN) = true
      ∧ Block.event eventC 10 0 "ping" (eventS .SHUTDOWN)
          = .error (.circuitShutDown, eventS .SHUTDOWN))
    ∧ (checkIdentOk "_get_output" = true
      ∧ startsWithGet "_get_output" = true
      ∧ Block.event eventC 10 0 "_get_output" (eventS .SHUTDOWN)
          = Block.eventAdmitted eventC (Block.event eventC 9) 9 0 "_get_output"
              (eventS .SHUTDOWN)) :=
  ⟨⟨by decide, by decide, by decide,
    (claim_C3_shutdown_gate eventC 9 0 "ping" (eventS .SHUTDOWN) (by decide)).1
      ⟨by decide, by decide⟩⟩,
   ⟨by decide, by decide,
    (claim_C3_shutdown_gate eventC 9 0 "_get_output" (eventS .SHUTDOWN) (by decide)).2
      (Or.inl (by decide))⟩⟩

/-- Witness for C9 on the concrete one-block circuit. -/
theorem claim_C9_witness :
    BlockOrFormula.set_output 0 none (eventS .RUNNING)
      = .error (.valueUndef 0, eventS .RUNNING)
    ∧ Block.set_output eventC 5 0 none (eventS .RUNNING)
        = .error (.valueUndef 0, Block.cancelInitTask 0 (eventS .RUNNING))
    ∧ ((eventS .RUNNING).out.getD 0 none = some (.vint 5)
        ∧ eventC.alwaysTrigger 0 = false
        ∧ Block.set_output eventC 5 0 (some (.vint 5)) (eventS .RUNNING)
            = .ok (false, eventS .RUNNING))
    ∧ (alwaysC.alwaysTrigger 0 = true
        ∧ Block.set_output alwaysC 5 0 (some (.vint 5)) (eventS .RUNNING)
            = Block.propagateFrom alwaysC 5 0
                { eventS .RUNNING with
                    prev := (eventS .RUNNING).prev.set 0 (some (.vint 5)) }) :=
  ⟨claim_C9_set_output.1 0 (eventS .RUNNING),
   (claim_C9_set_output.2.1 eventC 5 0 (eventS .RUNNING)).1,
   ⟨by decide, by decide,
    claim_C9_set_output.2.2.1 eventC 5 0 (.vint 5) (eventS .RUNNING) (by decide) (by decide)⟩,
   ⟨by decide,
    (claim_C9_set_output.2.2.2 alwaysC 5 0 (.vint 5) (eventS .RUNNING)
      (by decide) (by decide)).1⟩⟩

/-- Helper: `Circuit.shutdown` does not touch the error list. -/
theorem errors_shutdown_eq (s : RState) : (Circuit.shutdown s).errors = s.errors := by
  unfold Circuit.shutdown Circuit.set_state
  split
  · rfl
  · split <;> (split <;> rfl)

/-- Helper: requesting shutdown on a circuit not yet shutting down leaves
it past the shutdown boundary. -/
theorem after_shutdown_shutdown (s : RState) (h : Circuit.after_shutdown s = false) :
    Circuit.after_shutdown (Circuit.shutdown s) = true := by
  unfold Circuit.shutdown Circuit.set_state Circuit.after_shutdown at *
  cases hp : s.phase <;> simp_all [CircuitState.toNat]

/-- C8 counterexample: in the two-formula dependency cycle the evaluation
raises the dependency-loop error, yet the state carried by the raise has an
empty circuit error list and an unchanged running phase — `Circuit.abort`
was not invoked, contradicting the claim that cycle errors always force an
abort (only the re-entrancy error in `Block.event` does). -/
theorem claim_C8_counterexample :
    resultErr (Formula.evaluate cycleC 10 0 cycleS) = some (.depLoop 0)
    ∧ (resultState (Formula.evaluate cycleC 10 0 cycleS)).errors = []
    ∧ (resultState (Formula.evaluate cycleC 10 0 cycleS)).phase = .RUNNING :=
  ⟨by decide, by decide, by decide⟩

/-- C8 (amended): a re-entrant event delivery raises the re-entrancy error
and also invokes `Circuit.abort`, which records the error in the circuit's
error list and, when not already shutting down, requests shutdown; a
dependency-cycle error in `Formula.evaluate`, by contrast, is raised to the
caller with the circuit state unchanged — no abort. -/
theorem claim_C8_abort_on_reentrancy :
    (∀ (c : RCircuit) (fuel b : Nat) (etype : String) (s : RState),
      checkIdentOk etype = true →
      (startsWithGet etype = true ∨ Circuit.is_shut_down s = false) →
      etype ∈ s.etypesActive.getD b [] →
      Block.event c (fuel + 1) b etype s
        = .error (.reentrantEvent b etype, Circuit.abort (.reentrantEvent b etype) s))
    ∧ (∀ (e : RErr) (s : RState), e ∈ (Circuit.abort e s).errors)
    ∧ (∀ (e : RErr) (s : RState), e ∉ s.errors → Circuit.after_shutdown s = false →
        Circuit.after_shutdown (Circuit.abort e s) = true)
    ∧ (∀ (c : RCircuit) (fuel f : Nat) (s : RState),
        s.evalActive.getD f false = true →
        Formula.evaluate c (fuel + 1) f s = .error (.depLoop f, s)) := by
  refine ⟨fun c fuel b etype s hid h hact => ?_, fun e s => ?_, fun e s hnew hns => ?_,
    fun c fuel f s hact => ?_⟩
  · have hact' : etype ∈ s.etypesActive[b]?.getD [] := by
      simpa [List.getD_eq_getElem?_getD] using hact
    rw [Block.event]
    rcases h with hg | hsd
    · simp [hid, hg, Block.eventAdmitted, hact']
    · simp [hid, hsd, Block.eventAdmitted, hact']
  · unfold Circuit.abort
    split
    · assumption
    · simp only []
      split
      · simp
      · rw [errors_shutdown_eq]
        simp
  · unfold Circuit.abort
    split
    · exact absurd (by assumption) hnew
    · simp only []
      split
      · next hsd1 =>
        exact absurd hsd1 (by simpa [Circuit.after_shutdown] using hns)
      · exact after_shutdown_shutdown _ (by simpa [Circuit.after_shutdown] using hns)
  · have hact' : s.evalActive[f]?.getD false = true := by
      simpa [List.getD_eq_getElem?_getD] using hact
    rw [Formula.evaluate]
    simp [hact']

/-- The one-block circuit state with event type `selfping` in flight. -/
def eventSActive : RState := { eventS .RUNNING with etypesActive := [["selfping"]] }

/-- The cyclic circuit state with formula 0 marked as evaluating. -/
def cycleSActive : RState := { cycleS with evalActive := [true, false] }

/-- Witness for C8 on the concrete circuits. -/
theorem claim_C8_witness :
    (checkIdentOk "selfping" = true
      ∧ Circuit.is_shut_down eventSActive = false
      ∧ "selfping" ∈ eventSActive.etypesActive.getD 0 []
      ∧ Block.event eventC 10 0 "selfping" eventSActive
          = .error (.reentrantEvent 0 "selfping",
              Circuit.abort (.reentrantEvent 0 "selfping") eventSActive))
    ∧ (RErr.depLoop 0) ∈ (Circuit.abort (.depLoop 0) (eventS .RUNNING)).errors
    ∧ ((RErr.depLoop 0) ∉ (eventS .RUNNING).errors
        ∧ Circuit.after_shutdown (eventS .RUNNING) = false
        ∧ Circuit.after_shutdown (Circuit.abort (.depLoop 0) (eventS .RUNNING)) = true)
    ∧ (cycleSActive.evalActive.getD 0 false = true
        ∧ Formula.evaluate cycleC 10 0 cycleSActive = .error (.depLoop 0, cycleSActive)) :=
  ⟨⟨by decide, by decide, by decide,
    claim_C8_abort_on_reentrancy.1 eventC 9 0 "selfping" eventSActive (by decide)
      (Or.inr (by decide)) (by decide)⟩,
   claim_C8_abort_on_reentrancy.2.1 (.depLoop 0) (eventS .RUNNING),
   ⟨by decide, by decide,
    claim_C8_abort_on_reentrancy.2.2.1 (.depLoop 0) (eventS .RUNNING) (by decide) (by decide)⟩,
   ⟨by decide,
    claim_C8_abort_on_reentrancy.2.2.2 cycleC 9 0 cycleSActive (by decide)⟩⟩


/-- Helper: writing back the value read from an index is the identity. -/
theorem set_getD_self {α : Type} (l : List α) (b : Nat) (d : α) :
    l.set b (l.getD b d) = l := by
  induction l generalizing b with
  | nil => rfl
  | cons x xs ih =>
    cases b with
    | zero => rfl
    | succ b' => simpa using ih b'

/-- The base output primitive does not touch the in-flight event sets. -/
theorem ea_base_set_output (u : Nat) (v : Option PVal) (s : RState) :
    (resultState (BlockOrFormula.set_output u v s)).etypesActive = s.etypesActive := by
  unfold BlockOrFormula.set_output
  cases v
  · rfl
  · dsimp only
    split <;> rfl

/-- Trigger runs do not touch the in-flight event sets. -/
theorem ea_runTrigger (c : RCircuit) (tr : Nat) (s : RState) :
    (Trigger.runTrigger c tr s).etypesActive = s.etypesActive := by
  unfold Trigger.runTrigger
  split
  · split <;> rfl
  · rfl

/-- Folded trigger runs do not touch the in-flight event sets. -/
theorem ea_runTriggers (c : RCircuit) (trgs : List Nat) (s : RState) :
    (trgs.foldl (fun st tr => Trigger.runTrigger c tr st) s).etypesActive
      = s.etypesActive := by
  induction trgs generalizing s with
  | nil => rfl
  | cons tr rest ih => rw [List.foldl_cons, ih, ea_runTrigger]

/-- The dependent-formula loop preserves the in-flight event sets when the
evaluator it is given does. -/
theorem ea_evalDeps (ev : Nat → RState → Except (RErr × RState) (List Nat × RState))
    (hev : ∀ f s, (resultState (ev f s)).etypesActive = s.etypesActive) :
    ∀ (fs acc : List Nat) (s : RState),
      (resultState (Formula.evalDeps ev fs acc s)).etypesActive = s.etypesActive := by
  intro fs
  induction fs with
  | nil => intro acc s; rfl
  | cons f fs' ih =>
    intro acc s
    have h1 := hev f s
    simp only [Formula.evalDeps]
    cases hr : ev f s with
    | error e =>
      rw [hr] at h1
      exact h1
    | ok p =>
      rw [hr] at h1
      obtain ⟨ts, s'⟩ := p
      exact (ih (listUnion acc ts) s').trans h1

/-- Formula evaluation never touches the in-flight event sets. -/
theorem ea_evaluate (c : RCircuit) :
    ∀ (fuel f : Nat) (s : RState),
      (resultState (Formula.evaluate c fuel f s)).etypesActive = s.etypesActive := by
  intro fuel
  induction fuel with
  | zero => intro f s; rfl
  | succ fuel' ih =>
    intro f s
    simp only [Formula.evaluate]
    split
    · rfl
    · split
      · rfl
      · next pv _ =>
        have hb := ea_base_set_output f (some pv) s
        cases hso : BlockOrFormula.set_output f (some pv) s with
        | error e =>
          rw [hso] at hb
          exact hb
        | ok p =>
          rw [hso] at hb
          obtain ⟨changed, s1⟩ := p
          cases changed with
          | false => exact hb
          | true =>
            dsimp only
            have hd := ea_evalDeps (Formula.evaluate c fuel') ih (depF c f) (depT c f)
              { s1 with evalActive := s1.evalActive.set f true }
            cases hdr : Formula.evalDeps (Formula.evaluate c fuel') (depF c f) (depT c f)
                { s1 with evalActive := s1.evalActive.set f true } with
            | error e =>
              rw [hdr] at hd
              exact hd.trans hb
            | ok p2 =>
              rw [hdr] at hd
              obtain ⟨trgs, s3⟩ := p2
              exact hd.trans hb

/-- Propagation never touches the in-flight event sets. -/
theorem ea_propagateFrom (c : RCircuit) (fuel u : Nat) (s : RState) :
    (resultState (Block.propagateFrom c fuel u s)).etypesActive = s.etypesActive := by
  unfold Block.propagateFrom
  have hd := ea_evalDeps (Formula.evaluate c fuel) (ea_evaluate c fuel) (depF c u) (depT c u) s
  cases hdr : Formula.evalDeps (Formula.evaluate c fuel) (depF c u) (depT c u) s with
  | error e =>
    rw [hdr] at hd
    exact hd
  | ok p =>
    rw [hdr] at hd
    obtain ⟨trgs, s1⟩ := p
    dsimp only [resultState]
    rw [ea_runTriggers]
    exact hd

/-- Initializer-task cancellation does not touch the in-flight event sets. -/
theorem ea_cancelInitTask (u : Nat) (s : RState) :
    (Block.cancelInitTask u s).etypesActive = s.etypesActive := by
  unfold Block.cancelInitTask
  split <;> rfl

/-- `Block._set_output` never touches the in-flight event sets. -/
theorem ea_block_set_output (c : RCircuit) (fuel u : Nat) (v : Option PVal) (s : RState) :
    (resultState (Block.set_output c fuel u v s)).etypesActive = s.etypesActive := by
  unfold Block.set_output
  have hct := ea_cancelInitTask u s
  have hb := ea_base_set_output u v (Block.cancelInitTask u s)
  cases hso : BlockOrFormula.set_output u v (Block.cancelInitTask u s) with
  | error e =>
    rw [hso] at hb
    exact hb.trans hct
  | ok p =>
    rw [hso] at hb
    obtain ⟨changed, s1⟩ := p
    have hs1 : s1.etypesActive = s.etypesActive := hb.trans hct
    dsimp only
    split
    · exact (ea_propagateFrom c fuel u s1).trans hs1
    · split
      · split
        · exact (ea_propagateFrom c fuel u _).trans hs1
        · exact hs1
      · exact hs1

/-- `rz_init` never touches the in-flight event sets. -/
theorem ea_rz_init (c : RCircuit) (fuel b : Nat) (v : PVal) (s : RState) :
    (resultStateU (Memory.rz_init c fuel b v s)).etypesActive = s.etypesActive := by
  unfold Memory.rz_init
  have h := ea_block_set_output c fuel b (some v) s
  cases hso : Block.set_output c fuel b (some v) s with
  | error e => rw [hso] at h; exact h
  | ok p => rw [hso] at h; obtain ⟨x, s'⟩ := p; exact h

/-- Sync initializer application never touches the in-flight event sets. -/
theorem ea_apply_to (c : RCircuit) (fuel b i : Nat) (init : RInit) (s : RState) :
    (SyncInitializer.apply_to c fuel b i init s).etypesActive = s.etypesActive := by
  unfold SyncInitializer.apply_to
  split
  · rfl
  · cases init <;> first
      | rfl
      | exact ea_rz_init c fuel b _ (SyncInitializer.markApplied b i s)

/-- Async initializer application never touches the in-flight event sets. -/
theorem ea_async_apply_to (c : RCircuit) (fuel b i : Nat) (init : RInit) (s : RState) :
    (resultStateU (AsyncInitializer.async_apply_to c fuel b i init s)).etypesActive
      = s.etypesActive := by
  unfold AsyncInitializer.async_apply_to
  split
  · rfl
  · cases init <;> try rfl
    next v =>
      dsimp only
      split
      · have h := ea_rz_init c fuel b v (SyncInitializer.markApplied b i s)
        unfold Memory.rz_init at h ⊢
        cases hso : Block.set_output c fuel b (some v) (SyncInitializer.markApplied b i s) with
        | error e => rw [hso] at h; exact h
        | ok p => rw [hso] at h; obtain ⟨x, s'⟩ := p; exact h
      · rfl

/-- The initializer loop never touches the in-flight event sets. -/
theorem ea_initBlockAux (c : RCircuit) (fuel b : Nat) (withAsync : Bool) :
    ∀ (l : List (Nat × RInit)) (s : RState),
      (resultStateU (Circuit.initBlockAux c fuel b withAsync l s)).etypesActive
        = s.etypesActive := by
  intro l
  induction l with
  | nil => intro s; rfl
  | cons p rest ih =>
    intro s
    obtain ⟨i, init⟩ := p
    simp only [Circuit.initBlockAux]
    split
    · rfl
    · split
      · split
        · have ha := ea_async_apply_to c fuel b i init s
          cases hr : AsyncInitializer.async_apply_to c fuel b i init s with
          | error e => rw [hr] at ha; exact ha
          | ok s' => rw [hr] at ha; exact (ih s').trans ha
        · exact ih s
      · exact (ih _).trans (ea_apply_to c fuel b i init s)

/-- The default initializer never touches the in-flight event sets. -/
theorem ea_rz_init_default (c : RCircuit) (fuel b : Nat) (s : RState) :
    (resultStateU (Block.rz_init_default c fuel b s)).etypesActive = s.etypesActive := by
  unfold Block.rz_init_default
  split
  · have h := ea_block_set_output c fuel b (some .vnone) s
    cases hso : Block.set_output c fuel b (some .vnone) s with
    | error e => rw [hso] at h; exact h
    | ok p => rw [hso] at h; obtain ⟨x, s'⟩ := p; exact h
  · rfl

/-- Block initialization never touches the in-flight event sets. -/
theorem ea_initBlockCore (c : RCircuit) (fuel b : Nat) (withAsync : Bool) (s : RState) :
    (resultStateU (Circuit.initBlockCore c fuel b withAsync s)).etypesActive
      = s.etypesActive := by
  unfold Circuit.initBlockCore
  have ha := ea_initBlockAux c fuel b withAsync (c.inits b).enum s
  cases hr : Circuit.initBlockAux c fuel b withAsync (c.inits b).enum s with
  | error e => rw [hr] at ha; exact ha
  | ok s' =>
    rw [hr] at ha
    dsimp only
    split
    · exact (ea_rz_init_default c fuel b s').trans ha
    · exact ha

/-- `Circuit.abort` does not touch the in-flight event sets. -/
theorem ea_abort (e : RErr) (s : RState) :
    (Circuit.abort e s).etypesActive = s.etypesActive := by
  unfold Circuit.abort Circuit.shutdown Circuit.set_state
  split
  · rfl
  · dsimp only
    repeat' split
    all_goals rfl

/-- Adding an event type to a block's in-flight set and then removing it
restores the original per-block sets exactly. -/
theorem ea_add_remove (l : List (List String)) (b : Nat) (etype : String) :
    (l.set b (etype :: l.getD b [])).set b
        (((l.set b (etype :: l.getD b [])).getD b []).erase etype) = l := by
  by_cases hb : b < l.length
  · rw [getD_set_self _ _ _ _ (by simpa using hb), List.erase_cons_head, List.set_set]
    exact set_getD_self l b []
  · have hle : l.length ≤ b := Nat.le_of_not_lt hb
    rw [List.set_eq_of_length_le hle, List.set_eq_of_length_le hle]

/-- The event body preserves the in-flight sets when nested dispatch does. -/
theorem ea_eventMain (c : RCircuit)
    (ev : Nat → String → RState → Except (RErr × RState) (PVal × RState))
    (hev : ∀ (b : Nat) (et : String) (s : RState),
      (resultState (ev b et s)).etypesActive = s.etypesActive)
    (fuel b : Nat) (etype : String) (s : RState) :
    (resultState (Block.eventMain c ev fuel b etype s)).etypesActive
      = s.etypesActive := by
  unfold Block.eventMain
  have hi : (resultStateU (if !(BlockOrFormula.is_initialized b s) then
      Circuit.init_block_sync c fuel b s else .ok s)).etypesActive = s.etypesActive := by
    split
    · exact ea_initBlockCore c fuel b false s
    · rfl
  cases hr : (if !(BlockOrFormula.is_initialized b s) then
      Circuit.init_block_sync c fuel b s else .ok s) with
  | error e =>
    rw [hr] at hi
    exact hi
  | ok s1 =>
    rw [hr] at hi
    dsimp only
    cases c.handlers b etype with
    | none => exact hi
    | some h =>
      cases h with
      | hreturn v => exact hi
      | hraise => exact hi
      | hselfEvent et2 => exact (hev b et2 s1).trans hi
      | hsetOutput v =>
        dsimp only
        have hso := ea_block_set_output c fuel b (some v) s1
        cases hr2 : Block.set_output c fuel b (some v) s1 with
        | error e => rw [hr2] at hso; exact hso.trans hi
        | ok p => rw [hr2] at hso; obtain ⟨x, s2⟩ := p; exact hso.trans hi

/-- The admitted path restores the in-flight sets it changed, on return and
on raise alike. -/
theorem ea_eventAdmitted (c : RCircuit)
    (ev : Nat → String → RState → Except (RErr × RState) (PVal × RState))
    (hev : ∀ (b : Nat) (et : String) (s : RState),
      (resultState (ev b et s)).etypesActive = s.etypesActive)
    (fuel b : Nat) (etype : String) (s : RState) :
    (resultState (Block.eventAdmitted c ev fuel b etype s)).etypesActive
      = s.etypesActive := by
  unfold Block.eventAdmitted
  split
  · exact ea_abort _ s
  · have hm := ea_eventMain c ev hev fuel b etype (Block.addActive b etype s)
    cases hmr : Block.eventMain c ev fuel b etype (Block.addActive b etype s) with
    | ok p =>
      rw [hmr] at hm
      obtain ⟨v, s2⟩ := p
      have hm2 : s2.etypesActive
          = s.etypesActive.set b (etype :: s.etypesActive.getD b []) := hm
      show ((Block.removeActive b etype s2)).etypesActive = s.etypesActive
      unfold Block.removeActive
      dsimp only
      rw [hm2]
      exact ea_add_remove s.etypesActive b etype
    | error p =>
      rw [hmr] at hm
      obtain ⟨e, s2⟩ := p
      have hm2 : s2.etypesActive
          = s.etypesActive.set b (etype :: s.etypesActive.getD b []) := hm
      show ((Block.removeActive b etype s2)).etypesActive = s.etypesActive
      unfold Block.removeActive
      dsimp only
      rw [hm2]
      exact ea_add_remove s.etypesActive b etype

/-- `Block.event` leaves the in-flight event sets exactly as it found them,
whether it returns a value or raises. -/
theorem ea_event (c : RCircuit) :
    ∀ (fuel b : Nat) (etype : String) (s : RState),
      (resultState (Block.event c fuel b etype s)).etypesActive = s.etypesActive := by
  intro fuel
  induction fuel with
  | zero => intro b et s; rfl
  | succ fuel' ih =>
    intro b et s
    simp only [Block.event]
    split
    · rfl
    · split
      · rfl
      · exact ea_eventAdmitted c (Block.event c fuel') ih fuel' b et s

/-- C10: when `Block.event` terminates — returning a value or raising any
exception, including handler failures and unknown-event errors — the
in-flight event-type sets are exactly as before the call; hence an event
type not in flight beforehand is not in flight afterwards, so a later
non-nested delivery of that type is never rejected as re-entrant because
of an earlier failed delivery. -/
theorem claim_C10_inflight_cleared :
    (∀ (c : RCircuit) (fuel b : Nat) (etype : String) (s : RState),
      (resultState (Block.event c fuel b etype s)).etypesActive = s.etypesActive)
    ∧ (∀ (c : RCircuit) (fuel b : Nat) (etype et2 : String) (s : RState),
        etype ∉ s.etypesActive.getD b [] →
        etype ∉ (resultState (Block.event c fuel b et2 s)).etypesActive.getD b []) := by
  refine ⟨fun c fuel b etype s => ea_event c fuel b etype s,
    fun c fuel b etype et2 s h => ?_⟩
  rw [ea_event]
  exact h

/-- Witness for C10: a delivery that fails in its handler still clears the
event type. -/
theorem claim_C10_witness :
    "boom" ∉ (eventS .RUNNING).etypesActive.getD 0 []
    ∧ "boom" ∉ (resultState
        (Block.event eventC 10 0 "boom" (eventS .RUNNING))).etypesActive.getD 0 [] :=
  ⟨by decide,
   claim_C10_inflight_cleared.2 eventC 10 0 "boom" "boom" (eventS .RUNNING) (by decide)⟩


/-- Helper: clearing an already-clear flag is the identity. -/
theorem set_false_of_getD_false (l : List Bool) (f : Nat) (h : l.getD f false = false) :
    l.set f false = l := by
  have := set_getD_self l f false
  rwa [h] at this

/-- The base output primitive on a genuinely new value. -/
theorem base_some_change (u : Nat) (pv : PVal) (s : RState)
    (h : ¬ some pv = s.out.getD u none) :
    BlockOrFormula.set_output u (some pv) s
      = .ok (true, { s with prev := s.prev.set u (s.out.getD u none),
                            out := s.out.set u (some pv) }) := by
  unfold BlockOrFormula.set_output
  simp [List.getD_eq_getElem?_getD] at h
  simp [h, List.getD_eq_getElem?_getD]

/-- The base output primitive on an unchanged value. -/
theorem base_some_same (u : Nat) (pv : PVal) (s : RState)
    (h : some pv = s.out.getD u none) :
    BlockOrFormula.set_output u (some pv) s = .ok (false, s) := by
  unfold BlockOrFormula.set_output
  simp [List.getD_eq_getElem?_getD] at h
  simp [h, List.getD_eq_getElem?_getD]

/-- Formula evaluation terminates on rank-ordered (acyclic) dependent-formula
graphs: with enough fuel relative to the rank bound it returns normally and
restores all `_evaluate_active` flags.  Proven jointly with the analogous
statement for the dependent-formula loop by strong induction on the fuel. -/
theorem eval_term (c : RCircuit) (rank : Nat → Nat) (N : Nat)
    (hedge : ∀ u g, g ∈ depF c u → rank u < rank g)
    (hbound : ∀ u, rank u ≤ N) :
    ∀ (fuel : Nat),
      (∀ (f : Nat) (s : RState),
        (∀ u, s.evalActive.getD u false = true → rank u < rank f) →
        N + 1 - rank f ≤ fuel →
        ∃ ts s', Formula.evaluate c fuel f s = .ok (ts, s')
          ∧ s'.evalActive = s.evalActive)
      ∧ (∀ (fs acc : List Nat) (s : RState),
          (∀ g ∈ fs, (∀ u, s.evalActive.getD u false = true → rank u < rank g)
            ∧ N + 1 - rank g ≤ fuel) →
          ∃ ts s', Formula.evalDeps (Formula.evaluate c fuel) fs acc s = .ok (ts, s')
            ∧ s'.evalActive = s.evalActive) := by
  intro fuel
  induction fuel using Nat.strong_induction_on with
  | _ fuel ih =>
    have hE : ∀ (f : Nat) (s : RState),
        (∀ u, s.evalActive.getD u false = true → rank u < rank f) →
        N + 1 - rank f ≤ fuel →
        ∃ ts s', Formula.evaluate c fuel f s = .ok (ts, s')
          ∧ s'.evalActive = s.evalActive := by
      intro f s hact hfa
      cases fuel with
      | zero => exact absurd hfa (by have := hbound f; omega)
      | succ fuel' =>
        have hf : s.evalActive.getD f false = false := by
          cases h : s.evalActive.getD f false
          · rfl
          · exact absurd (hact f h) (Nat.lt_irrefl _)
        cases hrf : runFormulaFunction c f s with
        | none =>
          refine ⟨[], s, ?_, rfl⟩
          simp only [Formula.evaluate, hf, Bool.false_eq_true, if_false, hrf]
        | some pv =>
          by_cases hch : some pv = s.out.getD f none
          · refine ⟨[], s, ?_, rfl⟩
            simp only [Formula.evaluate, hf, Bool.false_eq_true, if_false, hrf,
              base_some_same f pv s hch]
          · have hso := base_some_change f pv s hch
            set supd : RState := { s with prev := s.prev.set f (s.out.getD f none),
                                          out := s.out.set f (some pv) } with hsupd
            set s2 : RState := { supd with evalActive := supd.evalActive.set f true }
              with hs2
            have hs2act : s2.evalActive = s.evalActive.set f true := rfl
            have hpre : ∀ g ∈ depF c f,
                (∀ u, s2.evalActive.getD u false = true → rank u < rank g)
                ∧ N + 1 - rank g ≤ fuel' := by
              intro g hg
              have hrfg : rank f < rank g := hedge f g hg
              refine ⟨fun u hu => ?_, by omega⟩
              by_cases huf : u = f
              · exact huf ▸ hrfg
              · rw [hs2act, getD_set_ne _ _ _ _ _ (fun hh => huf hh.symm)] at hu
                exact Nat.lt_trans (hact u hu) hrfg
            obtain ⟨ts, s3, hdeq, hdact⟩ :=
              (ih fuel' (Nat.lt_succ_self _)).2 (depF c f) (depT c f) s2 hpre
            refine ⟨ts, { s3 with evalActive := s3.evalActive.set f false }, ?_, ?_⟩
            · simp only [Formula.evaluate, hf, Bool.false_eq_true, if_false, hrf, hso, hdeq]
            · show s3.evalActive.set f false = s.evalActive
              rw [hdact, hs2act, List.set_set]
              exact set_false_of_getD_false s.evalActive f hf
    refine ⟨hE, ?_⟩
    intro fs
    induction fs with
    | nil => intro acc s _; exact ⟨acc, s, rfl, rfl⟩
    | cons g fs' ihl =>
      intro acc s hpre
      obtain ⟨ts, s', heq, hact'⟩ :=
        hE g s (hpre g (List.mem_cons_self g fs')).1 (hpre g (List.mem_cons_self g fs')).2
      obtain ⟨ts2, s'', heq2, hact2⟩ := ihl (listUnion acc ts) s' (by
        intro g2 hg2
        have h2 := hpre g2 (List.mem_cons_of_mem g hg2)
        refine ⟨fun u hu => h2.1 u ?_, h2.2⟩
        rwa [hact'] at hu)
      refine ⟨ts2, s'', ?_, hact2.trans hact'⟩
      simp only [Formula.evalDeps, heq, heq2]

/-- C7: a Formula re-entered while its evaluation is in progress (its
evaluating flag set) raises the dependency-cycle error with the state
unchanged, as the concrete two-formula cycle also shows; and on a
dependency graph admitting a rank function (an acyclic graph), evaluation
from a quiescent state terminates normally with sufficient fuel instead of
recursing forever. -/
theorem claim_C7_cycle_or_terminate :
    (∀ (c : RCircuit) (fuel f : Nat) (s : RState),
      s.evalActive.getD f false = true →
      Formula.evaluate c (fuel + 1) f s = .error (.depLoop f, s))
    ∧ (∀ (c : RCircuit) (rank : Nat → Nat) (N : Nat),
        (∀ u g, g ∈ depF c u → rank u < rank g) →
        (∀ u, rank u ≤ N) →
        ∀ (f fuel : Nat) (s : RState),
          (∀ u, s.evalActive.getD u false = false) →
          N + 1 ≤ fuel →
          ∃ ts s', Formula.evaluate c fuel f s = .ok (ts, s')
            ∧ s'.evalActive = s.evalActive)
    ∧ resultErr (Formula.evaluate cycleC 10 0 cycleS) = some (.depLoop 0) := by
  refine ⟨?_, ?_, by decide⟩
  · intro c fuel f s hact
    have hact' : s.evalActive[f]?.getD false = true := by
      simpa [List.getD_eq_getElem?_getD] using hact
    rw [Formula.evaluate]
    simp [hact']
  · intro c rank N hedge hbound f fuel s hact hfuel
    refine (eval_term c rank N hedge hbound fuel).1 f s
      (fun u hu => absurd hu (by rw [hact u]; simp)) (by have := hbound f; omega)

/-- Witness for C7: the concrete cycle raises, the concrete diamond
terminates. -/
theorem claim_C7_witness :
    (cycleSActive.evalActive.getD 0 false = true
      ∧ Formula.evaluate cycleC 10 0 cycleSActive = .error (.depLoop 0, cycleSActive))
    ∧ (∃ ts s', Formula.evaluate (diamondC (· + 1) (· * 2)) 3 1
          (diamondS (· + 1) (· * 2) 0) = .ok (ts, s')
        ∧ s'.evalActive = (diamondS (· + 1) (· * 2) 0).evalActive) :=
  ⟨⟨by decide, claim_C7_cycle_or_terminate.1 cycleC 9 0 cycleSActive (by decide)⟩,
   claim_C7_cycle_or_terminate.2.1 (diamondC (· + 1) (· * 2)) (fun u => min u 2) 2
     (by
       intro u g hg
       simp only [depF, diamondC, List.mem_filter, List.mem_range] at hg
       obtain ⟨hg3, hp⟩ := hg
       interval_cases g <;> simp_all)
     (fun u => Nat.min_le_right u 2)
     1 3 (diamondS (· + 1) (· * 2) 0)
     (by intro u; rcases u with _ | _ | _ | n <;> rfl)
     (by omega)⟩

/-- The base output primitive does not touch the applied flags. -/
theorem ap_base_set_output (u : Nat) (v : Option PVal) (s : RState) :
    (resultState (BlockOrFormula.set_output u v s)).applied = s.applied := by
  unfold BlockOrFormula.set_output
  cases v
  · rfl
  · dsimp only
    split <;> rfl

/-- Trigger runs do not touch the applied flags. -/
theorem ap_runTrigger (c : RCircuit) (tr : Nat) (s : RState) :
    (Trigger.runTrigger c tr s).applied = s.applied := by
  unfold Trigger.runTrigger
  split
  · split <;> rfl
  · rfl

/-- Folded trigger runs do not touch the applied flags. -/
theorem ap_runTriggers (c : RCircuit) (trgs : List Nat) (s : RState) :
    (trgs.foldl (fun st tr => Trigger.runTrigger c tr st) s).applied
      = s.applied := by
  induction trgs generalizing s with
  | nil => rfl
  | cons tr rest ih => rw [List.foldl_cons, ih, ap_runTrigger]

/-- The dependent-formula loop preserves the applied flags when the
evaluator it is given does. -/
theorem ap_evalDeps (ev : Nat → RState → Except (RErr × RState) (List Nat × RState))
    (hev : ∀ f s, (resultState (ev f s)).applied = s.applied) :
    ∀ (fs acc : List Nat) (s : RState),
      (resultState (Formula.evalDeps ev fs acc s)).applied = s.applied := by
  intro fs
  induction fs with
  | nil => intro acc s; rfl
  | cons f fs' ih =>
    intro acc s
    have h1 := hev f s
    simp only [Formula.evalDeps]
    cases hr : ev f s with
    | error e =>
      rw [hr] at h1
      exact h1
    | ok p =>
      rw [hr] at h1
      obtain ⟨ts, s'⟩ := p
      exact (ih (listUnion acc ts) s').trans h1

/-- Formula evaluation never touches the applied flags. -/
theorem ap_evaluate (c : RCircuit) :
    ∀ (fuel f : Nat) (s : RState),
      (resultState (Formula.evaluate c fuel f s)).applied = s.applied := by
  intro fuel
  induction fuel with
  | zero => intro f s; rfl
  | succ fuel' ih =>
    intro f s
    simp only [Formula.evaluate]
    split
    · rfl
    · split
      · rfl
      · next pv _ =>
        have hb := ap_base_set_output f (some pv) s
        cases hso : BlockOrFormula.set_output f (some pv) s with
        | error e =>
          rw [hso] at hb
          exact hb
        | ok p =>
          rw [hso] at hb
          obtain ⟨changed, s1⟩ := p
          cases changed with
          | false => exact hb
          | true =>
            dsimp only
            have hd := ap_evalDeps (Formula.evaluate c fuel') ih (depF c f) (depT c f)
              { s1 with evalActive := s1.evalActive.set f true }
            cases hdr : Formula.evalDeps (Formula.evaluate c fuel') (depF c f) (depT c f)
                { s1 with evalActive := s1.evalActive.set f true } with
            | error e =>
              rw [hdr] at hd
              exact hd.trans hb
            | ok p2 =>
              rw [hdr] at hd
              obtain ⟨trgs, s3⟩ := p2
              exact hd.trans hb

/-- Propagation never touches the applied flags. -/
theorem ap_propagateFrom (c : RCircuit) (fuel u : Nat) (s : RState) :
    (resultState (Block.propagateFrom c fuel u s)).applied = s.applied := by
  unfold Block.propagateFrom
  have hd := ap_evalDeps (Formula.evaluate c fuel) (ap_evaluate c fuel) (depF c u) (depT c u) s
  cases hdr : Formula.evalDeps (Formula.evaluate c fuel) (depF c u) (depT c u) s with
  | error e =>
    rw [hdr] at hd
    exact hd
  | ok p =>
    rw [hdr] at hd
    obtain ⟨trgs, s1⟩ := p
    dsimp only [resultState]
    rw [ap_runTriggers]
    exact hd

/-- Initializer-task cancellation does not touch the applied flags. -/
theorem ap_cancelInitTask (u : Nat) (s : RState) :
    (Block.cancelInitTask u s).applied = s.applied := by
  unfold Block.cancelInitTask
  split <;> rfl

/-- `Block._set_output` never touches the applied flags. -/
theorem ap_block_set_output (c : RCircuit) (fuel u : Nat) (v : Option PVal) (s : RState) :
    (resultState (Block.set_output c fuel u v s)).applied = s.applied := by
  unfold Block.set_output
  have hct := ap_cancelInitTask u s
  have hb := ap_base_set_output u v (Block.cancelInitTask u s)
  cases hso : BlockOrFormula.set_output u v (Block.cancelInitTask u s) with
  | error e =>
    rw [hso] at hb
    exact hb.trans hct
  | ok p =>
    rw [hso] at hb
    obtain ⟨changed, s1⟩ := p
    have hs1 : s1.applied = s.applied := hb.trans hct
    dsimp only
    split
    · exact (ap_propagateFrom c fuel u s1).trans hs1
    · split
      · split
        · exact (ap_propagateFrom c fuel u _).trans hs1
        · exact hs1
      · exact hs1

/-- `rz_init` never touches the applied flags. -/
theorem ap_rz_init (c : RCircuit) (fuel b : Nat) (v : PVal) (s : RState) :
    (resultStateU (Memory.rz_init c fuel b v s)).applied = s.applied := by
  unfold Memory.rz_init
  have h := ap_block_set_output c fuel b (some v) s
  cases hso : Block.set_output c fuel b (some v) s with
  | error e => rw [hso] at h; exact h
  | ok p => rw [hso] at h; obtain ⟨x, s'⟩ := p; exact h


/-- Every registered dependent formula is a Formula. -/
theorem depF_isFormula (c : RCircuit) (u g : Nat) (hg : g ∈ depF c u) :
    c.isFormula g = true := by
  unfold depF at hg
  simp only [List.mem_filter, Bool.and_eq_true] at hg
  exact hg.2.1

/-- Initializer-task cancellation does not touch outputs. -/
theorem out_cancelInitTask (u : Nat) (s : RState) :
    (Block.cancelInitTask u s).out = s.out := by
  unfold Block.cancelInitTask
  split <;> rfl

/-- A trigger run does not touch outputs. -/
theorem out_runTrigger (c : RCircuit) (tr : Nat) (s : RState) :
    (Trigger.runTrigger c tr s).out = s.out := by
  unfold Trigger.runTrigger
  split
  · split <;> rfl
  · rfl

/-- Folded trigger runs do not touch outputs. -/
theorem out_runTriggers (c : RCircuit) (trgs : List Nat) (s : RState) :
    (trgs.foldl (fun st tr => Trigger.runTrigger c tr st) s).out = s.out := by
  induction trgs generalizing s with
  | nil => rfl
  | cons tr rest ih => rw [List.foldl_cons, ih, out_runTrigger]

/-- Setting a Formula's output leaves every Block's output unchanged. -/
theorem oa_base_set_output (c : RCircuit) (f : Nat) (v : Option PVal) (s : RState)
    (hf : c.isFormula f = true) (u : Nat) (hu : c.isFormula u = false) :
    (resultState (BlockOrFormula.set_output f v s)).out.getD u none
      = s.out.getD u none := by
  have huf : f ≠ u := fun h => by rw [h, hu] at hf; cases hf
  unfold BlockOrFormula.set_output
  cases v
  · rfl
  · dsimp only
    split
    · rfl
    · exact getD_set_ne _ _ _ _ _ huf

/-- The dependent-formula loop leaves Block outputs unchanged when its
evaluator does. -/
theorem oa_evalDeps (c : RCircuit)
    (ev : Nat → RState → Except (RErr × RState) (List Nat × RState))
    (hev : ∀ f s, c.isFormula f = true → ∀ u, c.isFormula u = false →
      (resultState (ev f s)).out.getD u none = s.out.getD u none) :
    ∀ (fs acc : List Nat) (s : RState), (∀ g ∈ fs, c.isFormula g = true) →
      ∀ u, c.isFormula u = false →
      (resultState (Formula.evalDeps ev fs acc s)).out.getD u none
        = s.out.getD u none := by
  intro fs
  induction fs with
  | nil => intro acc s _ u hu; rfl
  | cons f fs' ih =>
    intro acc s hfs u hu
    have h1 := hev f s (hfs f (List.mem_cons_self f fs')) u hu
    simp only [Formula.evalDeps]
    cases hr : ev f s with
    | error e =>
      rw [hr] at h1
      exact h1
    | ok p =>
      rw [hr] at h1
      obtain ⟨ts, s'⟩ := p
      exact (ih (listUnion acc ts) s' (fun g hg => hfs g (List.mem_cons_of_mem f hg)) u
        hu).trans h1

/-- Evaluating a Formula leaves every Block's output unchanged. -/
theorem oa_evaluate (c : RCircuit) :
    ∀ (fuel f : Nat) (s : RState), c.isFormula f = true →
      ∀ u, c.isFormula u = false →
      (resultState (Formula.evaluate c fuel f s)).out.getD u none
        = s.out.getD u none := by
  intro fuel
  induction fuel with
  | zero => intro f s _ u _; rfl
  | succ fuel' ih =>
    intro f s hf u hu
    simp only [Formula.evaluate]
    split
    · rfl
    · split
      · rfl
      · next pv _ =>
        have hb := oa_base_set_output c f (some pv) s hf u hu
        cases hso : BlockOrFormula.set_output f (some pv) s with
        | error e =>
          rw [hso] at hb
          exact hb
        | ok p =>
          rw [hso] at hb
          obtain ⟨changed, s1⟩ := p
          cases changed with
          | false => exact hb
          | true =>
            dsimp only
            have hd := oa_evalDeps c (Formula.evaluate c fuel')
              (fun f' s' hf' => ih f' s' hf') (depF c f) (depT c f)
              { s1 with evalActive := s1.evalActive.set f true }
              (fun g hg => depF_isFormula c f g hg) u hu
            cases hdr : Formula.evalDeps (Formula.evaluate c fuel') (depF c f) (depT c f)
                { s1 with evalActive := s1.evalActive.set f true } with
            | error e =>
              rw [hdr] at hd
              exact hd.trans hb
            | ok p2 =>
              rw [hdr] at hd
              obtain ⟨trgs, s3⟩ := p2
              exact hd.trans hb

/-- Propagation recomputes only Formulas: Block outputs are unchanged. -/
theorem oa_propagateFrom (c : RCircuit) (fuel b : Nat) (s : RState)
    (u : Nat) (hu : c.isFormula u = false) :
    (resultState (Block.propagateFrom c fuel b s)).out.getD u none
      = s.out.getD u none := by
  unfold Block.propagateFrom
  have hd := oa_evalDeps c (Formula.evaluate c fuel)
    (fun f' s' hf' => oa_evaluate c fuel f' s' hf') (depF c b) (depT c b) s
    (fun g hg => depF_isFormula c b g hg) u hu
  cases hdr : Formula.evalDeps (Formula.evaluate c fuel) (depF c b) (depT c b) s with
  | error e =>
    rw [hdr] at hd
    exact hd
  | ok p =>
    rw [hdr] at hd
    obtain ⟨trgs, s1⟩ := p
    dsimp only [resultState]
    rw [out_runTriggers]
    exact hd

/-- `Block._set_output` with a value leaves the target Block's output equal
to that value, whatever propagation does afterwards. -/
theorem setout_defines (c : RCircuit) (fuel b : Nat) (v : PVal) (s : RState)
    (hb : b < s.out.length) (hbf : c.isFormula b = false) :
    (resultState (Block.set_output c fuel b (some v) s)).out.getD b none = some v := by
  unfold Block.set_output
  have hco := out_cancelInitTask b s
  by_cases hch : some v = (Block.cancelInitTask b s).out.getD b none
  · rw [base_some_same b v _ hch]
    rw [hco] at hch
    dsimp only
    split
    · next h => exact absurd h (by simp)
    · split
      · rw [oa_propagateFrom c fuel b _ b hbf]
        dsimp only
        rw [hco]
        exact hch.symm
      · dsimp only [resultState]
        rw [hco]
        exact hch.symm
  · rw [base_some_change b v _ hch]
    dsimp only
    split
    · rw [oa_propagateFrom c fuel b _ b hbf]
      dsimp only
      exact getD_set_self _ _ _ _ (by rw [hco]; exact hb)
    · next h => exact absurd rfl h

/-- `Block._set_output` leaves the outputs of other Blocks unchanged. -/
theorem oa_block_set_output_other (c : RCircuit) (fuel b : Nat) (v : Option PVal)
    (s : RState) (u : Nat) (hub : u ≠ b) (hu : c.isFormula u = false) :
    (resultState (Block.set_output c fuel b v s)).out.getD u none
      = s.out.getD u none := by
  unfold Block.set_output
  have hco := out_cancelInitTask b s
  cases v with
  | none =>
    show (Block.cancelInitTask b s).out.getD u none = s.out.getD u none
    rw [hco]
  | some pv =>
    by_cases hch : some pv = (Block.cancelInitTask b s).out.getD b none
    · rw [base_some_same b pv _ hch]
      dsimp only
      split
      · next h => exact absurd h (by simp)
      · split
        · rw [oa_propagateFrom c fuel b _ u hu]
          dsimp only
          rw [hco]
        · dsimp only [resultState]
          rw [hco]
    · rw [base_some_change b pv _ hch]
      dsimp only
      split
      · rw [oa_propagateFrom c fuel b _ u hu]
        dsimp only
        rw [hco]
        exact getD_set_ne _ _ _ _ _ (fun h => hub h.symm)
      · next h => exact absurd rfl h

/-- `rz_init` leaves the initialization value as the Block's output, even
when propagation raised and the exception was swallowed. -/
theorem rz_init_defines (c : RCircuit) (fuel b : Nat) (v : PVal) (s : RState)
    (hb : b < s.out.length) (hbf : c.isFormula b = false) :
    (resultStateU (Memory.rz_init c fuel b v s)).out.getD b none = some v := by
  unfold Memory.rz_init
  have h := setout_defines c fuel b v s hb hbf
  cases hso : Block.set_output c fuel b (some v) s with
  | error e => rw [hso] at h; exact h
  | ok p => rw [hso] at h; obtain ⟨x, s'⟩ := p; exact h

/-- The initializer loop exits at once for a block that has a value. -/
theorem initBlockAux_done (c : RCircuit) (fuel b : Nat) (wa : Bool)
    (l : List (Nat × RInit)) (s : RState) (h : BlockOrFormula.is_undef b s = false) :
    Circuit.initBlockAux c fuel b wa l s = .ok s := by
  cases l with
  | nil => rfl
  | cons p rest =>
    obtain ⟨i, init⟩ := p
    simp only [Circuit.initBlockAux, h]
    rfl

/-- Marking an initializer applied does not touch outputs. -/
theorem markApplied_out (b i : Nat) (s : RState) :
    (SyncInitializer.markApplied b i s).out = s.out := rfl

/-- A raising or value-less sync strategy leaves outputs untouched. -/
theorem apply_to_skip (c : RCircuit) (fuel b i : Nat) (init : RInit) (s : RState)
    (h : init = RInit.syncRaises ∨ init = RInit.syncUndef) :
    (SyncInitializer.apply_to c fuel b i init s).out = s.out := by
  unfold SyncInitializer.apply_to
  split
  · rfl
  · rcases h with h | h <;> (subst h; rfl)

/-- Marking one initializer applied leaves the other flags unchanged. -/
theorem markApplied_flag_other (b i j : Nat) (s : RState) (hj : j ≠ i) :
    ((SyncInitializer.markApplied b i s).applied.getD b []).getD j false
      = (s.applied.getD b []).getD j false := by
  unfold SyncInitializer.markApplied
  dsimp only
  by_cases hb : b < s.applied.length
  · rw [getD_set_self _ _ _ _ hb, getD_set_ne _ _ _ _ _ (fun h => hj h.symm)]
  · rw [List.set_eq_of_length_le (Nat.le_of_not_lt hb)]

/-- Applying one sync strategy leaves the other applied flags unchanged. -/
theorem apply_to_flag_other (c : RCircuit) (fuel b i j : Nat) (init : RInit)
    (s : RState) (hj : j ≠ i) :
    ((SyncInitializer.apply_to c fuel b i init s).applied.getD b []).getD j false
      = (s.applied.getD b []).getD j false := by
  unfold SyncInitializer.apply_to
  split
  · rfl
  · have hm := markApplied_flag_other b i j s hj
    cases init with
    | syncValue v =>
      dsimp only
      have ha := ap_rz_init c fuel b v (SyncInitializer.markApplied b i s)
      unfold Memory.rz_init at ha ⊢
      cases hso : Block.set_output c fuel b (some v) (SyncInitializer.markApplied b i s) with
      | error e =>
        rw [hso] at ha
        dsimp only [resultState] at ha
        show ((resultStateU (Except.error e)).applied.getD b []).getD j false = _
        obtain ⟨e1, e2⟩ := e
        dsimp only [resultStateU]
        rw [show e2.applied = (SyncInitializer.markApplied b i s).applied from ha]
        exact hm
      | ok p =>
        rw [hso] at ha
        obtain ⟨x, s2⟩ := p
        dsimp only [resultState] at ha
        show ((resultStateU (Except.ok s2)).applied.getD b []).getD j false = _
        dsimp only [resultStateU]
        rw [show s2.applied = (SyncInitializer.markApplied b i s).applied from ha]
        exact hm
    | syncRaises => exact hm
    | syncUndef => exact hm
    | asyncValue v => exact hm
    | asyncUndef => exact hm
    | asyncRaises => exact hm

/-- The initializer loop applied to `pre ++ [yields v] ++ rest` where every
strategy in `pre` raises or yields no value: the loop stops at the first
strategy that yields a value, that value becomes the Block's output, and
the strategies after it are never applied. -/
theorem C5core (c : RCircuit) (fuel b : Nat) (v : PVal) (hbf : c.isFormula b = false) :
    ∀ (pre : List RInit) (k : Nat) (rest : List RInit) (s : RState),
      (∀ i ∈ pre, i = RInit.syncRaises ∨ i = RInit.syncUndef) →
      BlockOrFormula.is_undef b s = true →
      b < s.out.length →
      (∀ j, k ≤ j → (s.applied.getD b []).getD j false = false) →
      ∃ s', Circuit.initBlockAux c fuel b false
          (List.enumFrom k (pre ++ RInit.syncValue v :: rest)) s = .ok s'
        ∧ s'.out.getD b none = some v
        ∧ (∀ j, k + pre.length < j → (s'.applied.getD b []).getD j false = false) := by
  intro pre
  induction pre with
  | nil =>
    intro k rest s _ hu hb hflags
    set s1 : RState := SyncInitializer.apply_to c fuel b k (RInit.syncValue v) s with hs1
    have hout : s1.out.getD b none = some v := by
      rw [hs1]
      unfold SyncInitializer.apply_to
      rw [SyncInitializer.appliedFlag]
      rw [hflags k (Nat.le_refl k)]
      dsimp only
      exact rz_init_defines c fuel b v (SyncInitializer.markApplied b k s)
        (by rw [markApplied_out]; exact hb) hbf
    have hflags1 : ∀ j, k + ([] : List RInit).length < j →
        (s1.applied.getD b []).getD j false = false := by
      intro j hjk
      rw [hs1, apply_to_flag_other c fuel b k j _ s (by simp at hjk; omega)]
      exact hflags j (by simp at hjk; omega)
    refine ⟨s1, ?_, hout, hflags1⟩
    show Circuit.initBlockAux c fuel b false
      (List.enumFrom k (RInit.syncValue v :: rest)) s = .ok s1
    simp only [List.enumFrom, Circuit.initBlockAux, hu]
    rw [initBlockAux_done c fuel b false _ s1 (by
      unfold BlockOrFormula.is_undef
      rw [hout]
      rfl)]
    simp [RInit.isAsync]
  | cons i0 pre' ih =>
    intro k rest s hpre hu hb hflags
    have hi0 := hpre i0 (List.mem_cons_self i0 pre')
    set s1 : RState := SyncInitializer.apply_to c fuel b k i0 s with hs1
    have hout1 : s1.out = s.out := by rw [hs1]; exact apply_to_skip c fuel b k i0 s hi0
    have hu1 : BlockOrFormula.is_undef b s1 = true := by
      unfold BlockOrFormula.is_undef at hu ⊢
      rwa [hout1]
    have hflags1 : ∀ j, k + 1 ≤ j → (s1.applied.getD b []).getD j false = false := by
      intro j hjk
      rw [hs1, apply_to_flag_other c fuel b k j _ s (by omega)]
      exact hflags j (by omega)
    obtain ⟨s', heq, hout, hfl⟩ := ih (k + 1) rest s1
      (fun i hi => hpre i (List.mem_cons_of_mem i0 hi)) hu1 (by rw [hout1]; exact hb)
      hflags1
    refine ⟨s', ?_, hout, fun j hj => hfl j (by simp at hj ⊢; omega)⟩
    show Circuit.initBlockAux c fuel b false
      (List.enumFrom k ((i0 :: pre') ++ RInit.syncValue v :: rest)) s = .ok s'
    have hasync : i0.isAsync = false := by
      rcases hi0 with h | h <;> (subst h; rfl)
    simp only [List.cons_append, List.enumFrom, Circuit.initBlockAux, hu, hasync]
    simpa using heq

/-- C5: initializer strategies are applied in list order; application stops
at the first strategy that yields a value, which becomes the Block's
output; raising strategies are skipped without aborting initialization, and
the strategies after the first success stay unapplied. -/
theorem claim_C5_init_order :
    ∀ (c : RCircuit) (fuel b : Nat) (s : RState) (pre rest : List RInit) (v : PVal),
      c.inits b = pre ++ RInit.syncValue v :: rest →
      (∀ i ∈ pre, i = RInit.syncRaises ∨ i = RInit.syncUndef) →
      BlockOrFormula.is_undef b s = true →
      c.isFormula b = false →
      b < s.out.length →
      (∀ j, (s.applied.getD b []).getD j false = false) →
      ∃ s', Circuit.init_block_sync c fuel b s = .ok s'
        ∧ s'.out.getD b none = some v
        ∧ (∀ j, pre.length < j → (s'.applied.getD b []).getD j false = false) := by
  intro c fuel b s pre rest v hinits hpre hu hbf hb hflags
  obtain ⟨s', heq, hout, hfl⟩ := C5core c fuel b v hbf pre 0 rest s hpre hu hb
    (fun j _ => hflags j)
  refine ⟨s', ?_, hout, fun j hj => hfl j (by omega)⟩
  unfold Circuit.init_block_sync Circuit.initBlockCore
  rw [hinits]
  rw [show (pre ++ RInit.syncValue v :: rest).enum
      = List.enumFrom 0 (pre ++ RInit.syncValue v :: rest) from rfl]
  rw [heq]
  dsimp only
  rw [show BlockOrFormula.is_undef b s' = false from by
    unfold BlockOrFormula.is_undef
    rw [hout]
    rfl]
  rfl

/-- Witness for C5: the `[fails, fails, succeeds-with-0]` block ends
initialization with output 0. -/
theorem claim_C5_witness :
    c5C.inits 0 = [RInit.syncRaises, RInit.syncRaises] ++ RInit.syncValue (.vint 0) :: []
    ∧ ∃ s', Circuit.init_block_sync c5C 5 0 c5S = .ok s'
        ∧ s'.out.getD 0 none = some (.vint 0) :=
  ⟨rfl,
   match claim_C5_init_order c5C 5 0 c5S [RInit.syncRaises, RInit.syncRaises] []
       (.vint 0) rfl (by decide) (by decide) (by decide) (by decide)
       (fun j => by
         show ((([[false, false, false]] : List (List Bool)).getD 0 []).getD j false) = false
         rcases j with _ | _ | _ | n <;> rfl) with
   | ⟨s', heq, hout, _⟩ => ⟨s', heq, hout⟩⟩


/-- The returned boolean of an output-setting call, if it returned. -/
def resultOutcome : Except (RErr × RState) (Bool × RState) → Option Bool
  | .ok (b, _) => some b
  | .error _ => none

/-- C1 (amended): in the diamond circuit (Block A feeding Formulas
F1 = g1(A) and F2 = g2(A), both feeding the enabled Trigger T), one
`setOutput` call on A with a new value recomputes both formulas from the
new value, and runs T's function exactly once if at least one formula
output actually changed — at which moment T observes the already-updated
F1 and F2 values — and zero times when both recomputed outputs are
unchanged. -/
theorem claim_C1_diamond (g1 g2 : Int → Int) (a0 v : Int) (hv : v ≠ a0) :
    resultOutcome (Block.set_output (diamondC g1 g2) 5 0 (some (.vint v))
        (diamondS g1 g2 a0)) = some true
    ∧ (resultState (Block.set_output (diamondC g1 g2) 5 0 (some (.vint v))
        (diamondS g1 g2 a0))).out
      = [some (.vint v), some (.vint (g1 v)), some (.vint (g2 v))]
    ∧ (resultState (Block.set_output (diamondC g1 g2) 5 0 (some (.vint v))
        (diamondS g1 g2 a0))).fired
      = (if g1 v = g1 a0 ∧ g2 v = g2 a0 then []
         else [(0, [some (.vint v), some (.vint (g1 v)), some (.vint (g2 v))])]) := by
  by_cases hg1 : g1 v = g1 a0 <;> by_cases hg2 : g2 v = g2 a0 <;>
    refine ⟨?_, ?_, ?_⟩ <;>
    simp [Block.set_output, Block.cancelInitTask, BlockOrFormula.set_output,
      Block.propagateFrom, Formula.evalDeps, Formula.evaluate, runFormulaFunction,
      Trigger.runTrigger, depF, depT, diamondC, diamondS, listUnion, resultOutcome,
      resultState, hv, hg1, hg2, List.range, List.range.loop]

/-- C1 counterexample: with constant formula functions, one `setOutput`
call on A with a fresh value succeeds and changes A's output, yet the
trigger's function runs zero times — not exactly once as claimed — because
neither formula's recomputed output differs from its previous output. -/
theorem claim_C1_counterexample :
    ((1 : Int) ≠ 0)
    ∧ resultOutcome (Block.set_output (diamondC (fun _ => 0) (fun _ => 0)) 5 0
        (some (.vint 1)) (diamondS (fun _ => 0) (fun _ => 0) 0)) = some true
    ∧ (resultState (Block.set_output (diamondC (fun _ => 0) (fun _ => 0)) 5 0
        (some (.vint 1)) (diamondS (fun _ => 0) (fun _ => 0) 0))).fired = [] :=
  ⟨by decide, by decide, by decide⟩

/-- Witness for C1 with genuinely changing formulas: the trigger runs
exactly once and observes the recomputed values. -/
theorem claim_C1_witness :
    ((1 : Int) ≠ 0)
    ∧ resultOutcome (Block.set_output (diamondC (· + 1) (· * 2)) 5 0
        (some (.vint 1)) (diamondS (· + 1) (· * 2) 0)) = some true
    ∧ (resultState (Block.set_output (diamondC (· + 1) (· * 2)) 5 0
        (some (.vint 1)) (diamondS (· + 1) (· * 2) 0))).out
      = [some (.vint 1), some (.vint 2), some (.vint 2)]
    ∧ (resultState (Block.set_output (diamondC (· + 1) (· * 2)) 5 0
        (some (.vint 1)) (diamondS (· + 1) (· * 2) 0))).fired
      = [(0, [some (.vint 1), some (.vint 2), some (.vint 2)])] :=
  have h := claim_C1_diamond (· + 1) (· * 2) 0 1 (by decide)
  ⟨by decide, h.1, h.2.1, by
    rw [h.2.2]
    decide⟩


/-- An output written with a value cannot read back as UNDEF unless it was
UNDEF before. -/
theorem od_set (l : List (Option PVal)) (i u : Nat) (pv : PVal)
    (h : (l.set i (some pv)).getD u none = none) : l.getD u none = none := by
  by_cases hiu : u = i
  · subst hiu
    by_cases hl : u < l.length
    · rw [getD_set_self _ _ _ _ hl] at h
      cases h
    · rwa [List.set_eq_of_length_le (Nat.le_of_not_lt hl)] at h
  · rwa [getD_set_ne _ _ _ _ _ (fun hh => hiu hh.symm)] at h

/-- The base output primitive never resets an output to UNDEF. -/
theorem od_base_set_output (f : Nat) (v : Option PVal) (s : RState) (u : Nat)
    (h : (resultState (BlockOrFormula.set_output f v s)).out.getD u none = none) :
    s.out.getD u none = none := by
  unfold BlockOrFormula.set_output at h
  cases v with
  | none => exact h
  | some pv =>
    dsimp only at h
    split at h
    · exact h
    · exact od_set s.out f u pv h

/-- The dependent-formula loop never resets an output to UNDEF. -/
theorem od_evalDeps (ev : Nat → RState → Except (RErr × RState) (List Nat × RState))
    (hev : ∀ f s u, (resultState (ev f s)).out.getD u none = none →
      s.out.getD u none = none) :
    ∀ (fs acc : List Nat) (s : RState) (u : Nat),
      (resultState (Formula.evalDeps ev fs acc s)).out.getD u none = none →
      s.out.getD u none = none := by
  intro fs
  induction fs with
  | nil => intro acc s u h; exact h
  | cons f fs' ih =>
    intro acc s u h
    simp only [Formula.evalDeps] at h
    cases hr : ev f s with
    | error e =>
      rw [hr] at h
      exact hev f s u (by rw [hr]; exact h)
    | ok p =>
      rw [hr] at h
      obtain ⟨ts, s'⟩ := p
      exact hev f s u (by rw [hr]; exact ih (listUnion acc ts) s' u h)

/-- Formula evaluation never resets an output to UNDEF. -/
theorem od_evaluate (c : RCircuit) :
    ∀ (fuel f : Nat) (s : RState) (u : Nat),
      (resultState (Formula.evaluate c fuel f s)).out.getD u none = none →
      s.out.getD u none = none := by
  intro fuel
  induction fuel with
  | zero => intro f s u h; exact h
  | succ fuel' ih =>
    intro f s u h
    simp only [Formula.evaluate] at h
    split at h
    · exact h
    · split at h
      · exact h
      · next pv _ =>
        cases hso : BlockOrFormula.set_output f (some pv) s with
        | error e =>
          rw [hso] at h
          exact od_base_set_output f (some pv) s u (by rw [hso]; exact h)
        | ok p =>
          rw [hso] at h
          obtain ⟨changed, s1⟩ := p
          have hs1 : s1.out.getD u none = none → s.out.getD u none = none := fun hh =>
            od_base_set_output f (some pv) s u (by rw [hso]; exact hh)
          cases changed with
          | false => exact hs1 h
          | true =>
            dsimp only at h
            refine hs1 ?_
            cases hdr : Formula.evalDeps (Formula.evaluate c fuel') (depF c f) (depT c f)
                { s1 with evalActive := s1.evalActive.set f true } with
            | error e =>
              rw [hdr] at h
              exact od_evalDeps (Formula.evaluate c fuel') ih (depF c f) (depT c f)
                { s1 with evalActive := s1.evalActive.set f true } u
                (by rw [hdr]; exact h)
            | ok p2 =>
              rw [hdr] at h
              obtain ⟨trgs, s3⟩ := p2
              exact od_evalDeps (Formula.evaluate c fuel') ih (depF c f) (depT c f)
                { s1 with evalActive := s1.evalActive.set f true } u
                (by rw [hdr]; exact h)

/-- Propagation never resets an output to UNDEF. -/
theorem od_propagateFrom (c : RCircuit) (fuel b : Nat) (s : RState) (u : Nat)
    (h : (resultState (Block.propagateFrom c fuel b s)).out.getD u none = none) :
    s.out.getD u none = none := by
  unfold Block.propagateFrom at h
  cases hdr : Formula.evalDeps (Formula.evaluate c fuel) (depF c b) (depT c b) s with
  | error e =>
    rw [hdr] at h
    exact od_evalDeps (Formula.evaluate c fuel) (od_evaluate c fuel) (depF c b)
      (depT c b) s u (by rw [hdr]; exact h)
  | ok p =>
    rw [hdr] at h
    obtain ⟨trgs, s1⟩ := p
    dsimp only [resultState] at h
    rw [out_runTriggers] at h
    exact od_evalDeps (Formula.evaluate c fuel) (od_evaluate c fuel) (depF c b)
      (depT c b) s u (by rw [hdr]; exact h)

/-- `Block._set_output` never resets an output to UNDEF. -/
theorem od_block_set_output (c : RCircuit) (fuel b : Nat) (v : Option PVal)
    (s : RState) (u : Nat)
    (h : (resultState (Block.set_output c fuel b v s)).out.getD u none = none) :
    s.out.getD u none = none := by
  unfold Block.set_output at h
  have hco := out_cancelInitTask b s
  have hred : (Block.cancelInitTask b s).out.getD u none = none →
      s.out.getD u none = none := fun hh => by rwa [hco] at hh
  cases hso : BlockOrFormula.set_output b v (Block.cancelInitTask b s) with
  | error e =>
    rw [hso] at h
    exact hred (od_base_set_output b v _ u (by rw [hso]; exact h))
  | ok p =>
    rw [hso] at h
    obtain ⟨changed, s1⟩ := p
    have hs1 : s1.out.getD u none = none → s.out.getD u none = none := fun hh =>
      hred (od_base_set_output b v _ u (by rw [hso]; exact hh))
    cases changed with
    | true => exact hs1 (od_propagateFrom c fuel b s1 u h)
    | false =>
      simp only [Bool.false_eq_true, if_false] at h
      split at h
      · split at h
        · rename_i pv
          exact hs1 (od_propagateFrom c fuel b
            { s1 with prev := s1.prev.set b (some pv) } u h)
        · exact hs1 h
      · exact hs1 h

/-- `rz_init` never resets an output to UNDEF. -/
theorem od_rz_init (c : RCircuit) (fuel b : Nat) (v : PVal) (s : RState) (u : Nat)
    (h : (resultStateU (Memory.rz_init c fuel b v s)).out.getD u none = none) :
    s.out.getD u none = none := by
  unfold Memory.rz_init at h
  cases hso : Block.set_output c fuel b (some v) s with
  | error e =>
    rw [hso] at h
    exact od_block_set_output c fuel b (some v) s u (by rw [hso]; exact h)
  | ok p =>
    rw [hso] at h
    obtain ⟨x, s'⟩ := p
    exact od_block_set_output c fuel b (some v) s u (by rw [hso]; exact h)

/-- Sync initializer application never resets an output to UNDEF. -/
theorem od_apply_to (c : RCircuit) (fuel b i : Nat) (init : RInit) (s : RState) (u : Nat)
    (h : (SyncInitializer.apply_to c fuel b i init s).out.getD u none = none) :
    s.out.getD u none = none := by
  unfold SyncInitializer.apply_to at h
  split at h
  · exact h
  · cases init <;> first
      | exact h
      | exact od_rz_init c fuel b _ (SyncInitializer.markApplied b i s) u h

/-- Async initializer application never resets an output to UNDEF. -/
theorem od_async_apply_to (c : RCircuit) (fuel b i : Nat) (init : RInit) (s : RState)
    (u : Nat)
    (h : (resultStateU (AsyncInitializer.async_apply_to c fuel b i init s)).out.getD
      u none = none) :
    s.out.getD u none = none := by
  unfold AsyncInitializer.async_apply_to at h
  split at h
  · exact h
  · cases init <;> try exact h
    next v =>
      dsimp only at h
      split at h
      · exact od_rz_init c fuel b v (SyncInitializer.markApplied b i s) u h
      · exact h

/-- The initializer loop never resets an output to UNDEF. -/
theorem od_initBlockAux (c : RCircuit) (fuel b : Nat) (wa : Bool) :
    ∀ (l : List (Nat × RInit)) (s : RState) (u : Nat),
      (resultStateU (Circuit.initBlockAux c fuel b wa l s)).out.getD u none = none →
      s.out.getD u none = none := by
  intro l
  induction l with
  | nil => intro s u h; exact h
  | cons p rest ih =>
    intro s u h
    obtain ⟨i, init⟩ := p
    simp only [Circuit.initBlockAux] at h
    split at h
    · exact h
    · split at h
      · split at h
        · cases hr : AsyncInitializer.async_apply_to c fuel b i init s with
          | error e =>
            rw [hr] at h
            exact od_async_apply_to c fuel b i init s u (by rw [hr]; exact h)
          | ok s' =>
            rw [hr] at h
            exact od_async_apply_to c fuel b i init s u (by rw [hr]; exact ih s' u h)
        · exact ih s u h
      · exact od_apply_to c fuel b i init s u (ih _ u h)

/-- The default initializer never resets an output to UNDEF. -/
theorem od_rz_init_default (c : RCircuit) (fuel b : Nat) (s : RState) (u : Nat)
    (h : (resultStateU (Block.rz_init_default c fuel b s)).out.getD u none = none) :
    s.out.getD u none = none := by
  unfold Block.rz_init_default at h
  split at h
  · cases hso : Block.set_output c fuel b (some .vnone) s with
    | error e =>
      rw [hso] at h
      exact od_block_set_output c fuel b (some .vnone) s u (by rw [hso]; exact h)
    | ok p =>
      rw [hso] at h
      obtain ⟨x, s'⟩ := p
      exact od_block_set_output c fuel b (some .vnone) s u (by rw [hso]; exact h)
  · exact h

/-- Block initialization never resets an output to UNDEF. -/
theorem od_initBlockCore (c : RCircuit) (fuel b : Nat) (wa : Bool) (s : RState) (u : Nat)
    (h : (resultStateU (Circuit.initBlockCore c fuel b wa s)).out.getD u none = none) :
    s.out.getD u none = none := by
  unfold Circuit.initBlockCore at h
  cases hr : Circuit.initBlockAux c fuel b wa (c.inits b).enum s with
  | error e =>
    rw [hr] at h
    exact od_initBlockAux c fuel b wa _ s u (by rw [hr]; exact h)
  | ok s' =>
    rw [hr] at h
    dsimp only at h
    split at h
    · exact od_initBlockAux c fuel b wa _ s u
        (by rw [hr]; exact od_rz_init_default c fuel b s' u h)
    · exact od_initBlockAux c fuel b wa _ s u (by rw [hr]; exact h)

/-- An initialization pass never resets an output to UNDEF. -/
theorem od_initList (c : RCircuit) (fuel : Nat) (wa : Bool) :
    ∀ (ids : List Nat) (s : RState) (u : Nat),
      (resultStateU (Circuit.initList c fuel wa ids s)).out.getD u none = none →
      s.out.getD u none = none := by
  intro ids
  induction ids with
  | nil => intro s u h; exact h
  | cons b bs ih =>
    intro s u h
    simp only [Circuit.initList] at h
    cases hr : Circuit.initBlockCore c fuel b wa s with
    | error e =>
      rw [hr] at h
      exact od_initBlockCore c fuel b wa s u (by rw [hr]; exact h)
    | ok s' =>
      rw [hr] at h
      exact od_initBlockCore c fuel b wa s u (by rw [hr]; exact ih s' u h)

/-- The two initialization passes never reset an output to UNDEF. -/
theorem od_initPasses (c : RCircuit) (fuel : Nat) (ids : List Nat) (s : RState) (u : Nat)
    (h : (resultStateU (Circuit.initPasses c fuel ids s)).out.getD u none = none) :
    s.out.getD u none = none := by
  unfold Circuit.initPasses at h
  dsimp only at h
  cases hr : Circuit.initList c fuel false
      ((ids.filter (fun b => BlockOrFormula.is_undef b s)).filter
        (fun b => !(c.inits b).any RInit.isAsync)) s with
  | error e =>
    rw [hr] at h
    exact od_initList c fuel false _ s u (by rw [hr]; exact h)
  | ok s1 =>
    rw [hr] at h
    exact od_initList c fuel false _ s u (by rw [hr]; exact od_initList c fuel true _ s1 u h)

/-- The default initializer never touches the applied flags. -/
theorem ap_rz_init_default (c : RCircuit) (fuel b : Nat) (s : RState) :
    (resultStateU (Block.rz_init_default c fuel b s)).applied = s.applied := by
  unfold Block.rz_init_default
  split
  · have h := ap_block_set_output c fuel b (some .vnone) s
    cases hso : Block.set_output c fuel b (some .vnone) s with
    | error e => rw [hso] at h; exact h
    | ok p => rw [hso] at h; obtain ⟨x, s'⟩ := p; exact h
  · rfl

/-- Marking an initializer applied never clears another applied flag. -/
theorem fm_markApplied (b' i b j : Nat) (s : RState)
    (h : (s.applied.getD b []).getD j false = true) :
    (((SyncInitializer.markApplied b' i s).applied.getD b []).getD j false) = true := by
  unfold SyncInitializer.markApplied
  dsimp only
  by_cases hbb : b = b'
  · subst hbb
    by_cases hb : b < s.applied.length
    · rw [getD_set_self _ _ _ _ hb]
      by_cases hji : j = i
      · subst hji
        by_cases hj : j < (s.applied.getD b []).length
        · rw [getD_set_self _ _ _ _ hj]
        · rwa [List.set_eq_of_length_le (Nat.le_of_not_lt hj)]
      · rwa [getD_set_ne _ _ _ _ _ (fun hh => hji hh.symm)]
    · rwa [List.set_eq_of_length_le (Nat.le_of_not_lt hb)]
  · rwa [getD_set_ne _ _ _ _ _ (fun hh => hbb hh.symm)]

/-- Sync initializer application never clears an applied flag. -/
theorem fm_apply_to (c : RCircuit) (fuel b' i b j : Nat) (init : RInit) (s : RState)
    (h : (s.applied.getD b []).getD j false = true) :
    (((SyncInitializer.apply_to c fuel b' i init s).applied.getD b []).getD j false)
      = true := by
  unfold SyncInitializer.apply_to
  split
  · exact h
  · have hm := fm_markApplied b' i b j s h
    cases init <;> try exact hm
    next v =>
      dsimp only
      have ha := ap_rz_init c fuel b' v (SyncInitializer.markApplied b' i s)
      unfold Memory.rz_init at ha ⊢
      cases hso : Block.set_output c fuel b' (some v)
          (SyncInitializer.markApplied b' i s) with
      | error e =>
        rw [hso] at ha
        obtain ⟨e1, e2⟩ := e
        show ((resultStateU (Except.error (e1, e2))).applied.getD b []).getD j false = true
        dsimp only [resultStateU]
        rw [show e2.applied = (SyncInitializer.markApplied b' i s).applied from ha]
        exact hm
      | ok p =>
        rw [hso] at ha
        obtain ⟨x, s2⟩ := p
        show ((resultStateU (Except.ok s2)).applied.getD b []).getD j false = true
        dsimp only [resultStateU]
        rw [show s2.applied = (SyncInitializer.markApplied b' i s).applied from ha]
        exact hm

/-- Async initializer application never clears an applied flag. -/
theorem fm_async_apply_to (c : RCircuit) (fuel b' i b j : Nat) (init : RInit)
    (s : RState) (h : (s.applied.getD b []).getD j false = true) :
    (((resultStateU (AsyncInitializer.async_apply_to c fuel b' i init s)).applied.getD
      b []).getD j false) = true := by
  unfold AsyncInitializer.async_apply_to
  split
  · exact h
  · have hm := fm_markApplied b' i b j s h
    cases init <;> try exact hm
    next v =>
      dsimp only
      split
      · have ha := ap_rz_init c fuel b' v (SyncInitializer.markApplied b' i s)
        unfold Memory.rz_init at ha ⊢
        cases hso : Block.set_output c fuel b' (some v)
            (SyncInitializer.markApplied b' i s) with
        | error e =>
          rw [hso] at ha
          obtain ⟨e1, e2⟩ := e
          show ((resultStateU (Except.error (e1, e2))).applied.getD b []).getD j false
            = true
          dsimp only [resultStateU]
          rw [show e2.applied = (SyncInitializer.markApplied b' i s).applied from ha]
          exact hm
        | ok p =>
          rw [hso] at ha
          obtain ⟨x, s2⟩ := p
          show ((resultStateU (Except.ok s2)).applied.getD b []).getD j false = true
          dsimp only [resultStateU]
          rw [show s2.applied = (SyncInitializer.markApplied b' i s).applied from ha]
          exact hm
      · exact hm

/-- The initializer loop never clears an applied flag. -/
theorem fm_initBlockAux (c : RCircuit) (fuel b' : Nat) (wa : Bool) :
    ∀ (l : List (Nat × RInit)) (s s' : RState),
      Circuit.initBlockAux c fuel b' wa l s = .ok s' →
      ∀ (b j : Nat), (s.applied.getD b []).getD j false = true →
      (s'.applied.getD b []).getD j false = true := by
  intro l
  induction l with
  | nil =>
    intro s s' heq b j h
    cases heq
    exact h
  | cons p rest ih =>
    intro s s' heq b j h
    obtain ⟨i, init⟩ := p
    simp only [Circuit.initBlockAux] at heq
    split at heq
    · cases heq
      exact h
    · split at heq
      · split at heq
        · cases hr : AsyncInitializer.async_apply_to c fuel b' i init s with
          | error e =>
            rw [hr] at heq
            cases heq
          | ok s1 =>
            rw [hr] at heq
            refine ih s1 s' heq b j ?_
            have := fm_async_apply_to c fuel b' i b j init s h
            rwa [hr] at this
        · exact ih s s' heq b j h
      · exact ih _ s' heq b j (fm_apply_to c fuel b' i b j init s h)

/-- The default initializer never clears an applied flag. -/
theorem fm_rz_init_default (c : RCircuit) (fuel b' : Nat) (s s' : RState)
    (heq : Block.rz_init_default c fuel b' s = .ok s') (b j : Nat)
    (h : (s.applied.getD b []).getD j false = true) :
    (s'.applied.getD b []).getD j false = true := by
  have ha := ap_rz_init_default c fuel b' s
  rw [heq] at ha
  rw [show s'.applied = s.applied from ha]
  exact h

/-- Block initialization never clears an applied flag. -/
theorem fm_initBlockCore (c : RCircuit) (fuel b' : Nat) (wa : Bool) (s s' : RState)
    (heq : Circuit.initBlockCore c fuel b' wa s = .ok s') (b j : Nat)
    (h : (s.applied.getD b []).getD j false = true) :
    (s'.applied.getD b []).getD j false = true := by
  unfold Circuit.initBlockCore at heq
  cases hr : Circuit.initBlockAux c fuel b' wa (c.inits b').enum s with
  | error e =>
    rw [hr] at heq
    cases heq
  | ok s1 =>
    rw [hr] at heq
    dsimp only at heq
    have h1 := fm_initBlockAux c fuel b' wa _ s s1 hr b j h
    split at heq
    · exact fm_rz_init_default c fuel b' s1 s' heq b j h1
    · cases heq
      exact h1

/-- An initialization pass never clears an applied flag. -/
theorem fm_initList (c : RCircuit) (fuel : Nat) (wa : Bool) :
    ∀ (ids : List Nat) (s s' : RState),
      Circuit.initList c fuel wa ids s = .ok s' →
      ∀ (b j : Nat), (s.applied.getD b []).getD j false = true →
      (s'.applied.getD b []).getD j false = true := by
  intro ids
  induction ids with
  | nil =>
    intro s s' heq b j h
    cases heq
    exact h
  | cons u us ih =>
    intro s s' heq b j h
    simp only [Circuit.initList] at heq
    cases hr : Circuit.initBlockCore c fuel u wa s with
    | error e =>
      rw [hr] at heq
      cases heq
    | ok s1 =>
      rw [hr] at heq
      exact ih s1 s' heq b j (fm_initBlockCore c fuel u wa s s1 hr b j h)

/-- Marking an initializer applied preserves the flag-table shape. -/
theorem sh_markApplied (b' i : Nat) (s : RState) :
    (SyncInitializer.markApplied b' i s).applied.length = s.applied.length
    ∧ ∀ b, ((SyncInitializer.markApplied b' i s).applied.getD b []).length
      = (s.applied.getD b []).length := by
  unfold SyncInitializer.markApplied
  dsimp only
  refine ⟨List.length_set _ _ _, fun b => ?_⟩
  by_cases hbb : b = b'
  · subst hbb
    by_cases hb : b < s.applied.length
    · rw [getD_set_self _ _ _ _ hb, List.length_set]
    · rw [List.set_eq_of_length_le (Nat.le_of_not_lt hb)]
  · rw [getD_set_ne _ _ _ _ _ (fun hh => hbb hh.symm)]

/-- `rz_init` leaves the applied flags untouched. -/
theorem sh_rz_init (c : RCircuit) (fuel b' : Nat) (v : PVal) (s : RState) :
    (resultStateU (Memory.rz_init c fuel b' v s)).applied = s.applied := by
  unfold Memory.rz_init
  have h := ap_block_set_output c fuel b' (some v) s
  cases hso : Block.set_output c fuel b' (some v) s with
  | error e => rw [hso] at h; exact h
  | ok p => rw [hso] at h; obtain ⟨x, s2⟩ := p; exact h

/-- Sync initializer application preserves the flag-table shape. -/
theorem sh_apply_to (c : RCircuit) (fuel b' i : Nat) (init : RInit) (s : RState) :
    (SyncInitializer.apply_to c fuel b' i init s).applied.length = s.applied.length
    ∧ ∀ b, ((SyncInitializer.apply_to c fuel b' i init s).applied.getD b []).length
      = (s.applied.getD b []).length := by
  unfold SyncInitializer.apply_to
  split
  · exact ⟨rfl, fun b => rfl⟩
  · have hm := sh_markApplied b' i s
    cases init <;> try exact hm
    next v =>
      dsimp only
      rw [show (resultStateU (Memory.rz_init c fuel b' v
          (SyncInitializer.markApplied b' i s))).applied
        = (SyncInitializer.markApplied b' i s).applied from sh_rz_init c fuel b' v _]
      exact hm

/-- Async initializer application preserves the flag-table shape. -/
theorem sh_async_apply_to (c : RCircuit) (fuel b' i : Nat) (init : RInit) (s : RState) :
    (resultStateU (AsyncInitializer.async_apply_to c fuel b' i init s)).applied.length
      = s.applied.length
    ∧ ∀ b, ((resultStateU (AsyncInitializer.async_apply_to c fuel b' i init
        s)).applied.getD b []).length = (s.applied.getD b []).length := by
  unfold AsyncInitializer.async_apply_to
  split
  · exact ⟨rfl, fun b => rfl⟩
  · have hm := sh_markApplied b' i s
    cases init <;> try exact hm
    next v =>
      dsimp only
      split
      · rw [show (resultStateU (Memory.rz_init c fuel b' v
            (SyncInitializer.markApplied b' i s))).applied
          = (SyncInitializer.markApplied b' i s).applied from sh_rz_init c fuel b' v _]
        exact hm
      · exact hm

/-- The initializer loop preserves the flag-table shape. -/
theorem sh_initBlockAux (c : RCircuit) (fuel b' : Nat) (wa : Bool) :
    ∀ (l : List (Nat × RInit)) (s : RState),
      (resultStateU (Circuit.initBlockAux c fuel b' wa l s)).applied.length
        = s.applied.length
      ∧ ∀ b, ((resultStateU (Circuit.initBlockAux c fuel b' wa l s)).applied.getD
          b []).length = (s.applied.getD b []).length := by
  intro l
  induction l with
  | nil => intro s; exact ⟨rfl, fun b => rfl⟩
  | cons p rest ih =>
    intro s
    obtain ⟨i, init⟩ := p
    simp only [Circuit.initBlockAux]
    split
    · exact ⟨rfl, fun b => rfl⟩
    · split
      · split
        · cases hr : AsyncInitializer.async_apply_to c fuel b' i init s with
          | error e =>
            have hm := sh_async_apply_to c fuel b' i init s
            rw [hr] at hm
            exact hm
          | ok s1 =>
            have hm := sh_async_apply_to c fuel b' i init s
            rw [hr] at hm
            exact ⟨(ih s1).1.trans hm.1, fun b => ((ih s1).2 b).trans (hm.2 b)⟩
        · exact ih s
      · have hm := sh_apply_to c fuel b' i init s
        refine ⟨(ih _).1.trans hm.1, fun b => ((ih _).2 b).trans (hm.2 b)⟩

/-- Block initialization preserves the flag-table shape. -/
theorem sh_initBlockCore (c : RCircuit) (fuel b' : Nat) (wa : Bool) (s : RState) :
    (resultStateU (Circuit.initBlockCore c fuel b' wa s)).applied.length
      = s.applied.length
    ∧ ∀ b, ((resultStateU (Circuit.initBlockCore c fuel b' wa s)).applied.getD
        b []).length = (s.applied.getD b []).length := by
  unfold Circuit.initBlockCore
  have ha := sh_initBlockAux c fuel b' wa (c.inits b').enum s
  cases hr : Circuit.initBlockAux c fuel b' wa (c.inits b').enum s with
  | error e =>
    rw [hr] at ha
    exact ha
  | ok s1 =>
    rw [hr] at ha
    dsimp only
    split
    · rw [show (resultStateU (Block.rz_init_default c fuel b' s1)).applied = s1.applied
        from ap_rz_init_default c fuel b' s1]
      exact ha
    · exact ha

/-- An initialization pass preserves the flag-table shape. -/
theorem sh_initList (c : RCircuit) (fuel : Nat) (wa : Bool) :
    ∀ (ids : List Nat) (s : RState),
      (resultStateU (Circuit.initList c fuel wa ids s)).applied.length
        = s.applied.length
      ∧ ∀ b, ((resultStateU (Circuit.initList c fuel wa ids s)).applied.getD
          b []).length = (s.applied.getD b []).length := by
  intro ids
  induction ids with
  | nil => intro s; exact ⟨rfl, fun b => rfl⟩
  | cons u us ih =>
    intro s
    simp only [Circuit.initList]
    have hc := sh_initBlockCore c fuel u wa s
    cases hr : Circuit.initBlockCore c fuel u wa s with
    | error e =>
      rw [hr] at hc
      exact hc
    | ok s1 =>
      rw [hr] at hc
      exact ⟨(ih s1).1.trans hc.1, fun b => ((ih s1).2 b).trans (hc.2 b)⟩

/-- Marking an in-range initializer applied sets its flag. -/
theorem afl_markApplied (b i : Nat) (s : RState) (hb : b < s.applied.length)
    (hi : i < (s.applied.getD b []).length) :
    ((SyncInitializer.markApplied b i s).applied.getD b []).getD i false = true := by
  unfold SyncInitializer.markApplied
  dsimp only
  rw [getD_set_self _ _ _ _ hb, getD_set_self _ _ _ _ hi]

/-- Sync initializer application leaves the strategy marked applied. -/
theorem afl_apply_to (c : RCircuit) (fuel b i : Nat) (init : RInit) (s : RState)
    (hb : b < s.applied.length) (hi : i < (s.applied.getD b []).length) :
    ((SyncInitializer.apply_to c fuel b i init s).applied.getD b []).getD i false
      = true := by
  unfold SyncInitializer.apply_to
  split
  · next hfl => exact hfl
  · have hm := afl_markApplied b i s hb hi
    cases init <;> try exact hm
    next v =>
      dsimp only
      rw [show (resultStateU (Memory.rz_init c fuel b v
          (SyncInitializer.markApplied b i s))).applied
        = (SyncInitializer.markApplied b i s).applied from sh_rz_init c fuel b v _]
      exact hm

/-- Async initializer application leaves the strategy marked applied. -/
theorem afl_async_apply_to (c : RCircuit) (fuel b i : Nat) (init : RInit) (s : RState)
    (hb : b < s.applied.length) (hi : i < (s.applied.getD b []).length) :
    ((resultStateU (AsyncInitializer.async_apply_to c fuel b i init s)).applied.getD
      b []).getD i false = true := by
  unfold AsyncInitializer.async_apply_to
  split
  · next hfl => exact hfl
  · have hm := afl_markApplied b i s hb hi
    cases init <;> try exact hm
    next v =>
      dsimp only
      split
      · rw [show (resultStateU (Memory.rz_init c fuel b v
            (SyncInitializer.markApplied b i s))).applied
          = (SyncInitializer.markApplied b i s).applied from sh_rz_init c fuel b v _]
        exact hm
      · exact hm

/-- An indexed-list member's payload is a member of the underlying list. -/
theorem snd_mem_of_mem_enumFrom {α : Type} :
    ∀ (l : List α) (k : Nat) (p : Nat × α), p ∈ List.enumFrom k l → p.2 ∈ l := by
  intro l
  induction l with
  | nil => intro k p hp; cases hp
  | cons x xs ih =>
    intro k p hp
    rcases List.mem_cons.mp hp with hph | hpt
    · subst hph
      exact List.mem_cons_self x xs
    · exact List.mem_cons_of_mem x (ih (k + 1) p hpt)

/-- A block still uninitialized after its initializer loop has every listed
strategy marked applied. -/
theorem aux_all_applied (c : RCircuit) (fuel b : Nat) (wa : Bool) :
    ∀ (l : List (Nat × RInit)) (s s' : RState),
      Circuit.initBlockAux c fuel b wa l s = .ok s' →
      BlockOrFormula.is_undef b s' = true →
      (∀ p ∈ l, p.2.isAsync = true → wa = true) →
      b < s.applied.length →
      (∀ p ∈ l, p.1 < (s.applied.getD b []).length) →
      ∀ p ∈ l, (s'.applied.getD b []).getD p.1 false = true := by
  intro l
  induction l with
  | nil => intro s s' _ _ _ _ _ p hp; cases hp
  | cons q rest ih =>
    intro s s' heq hu' hasy hb hidx p hp
    obtain ⟨i, init⟩ := q
    simp only [Circuit.initBlockAux] at heq
    split at heq
    · next hdef =>
      cases heq
      rw [hu'] at hdef
      cases hdef
    · split at heq
      · next hia =>
        split at heq
        · cases hr : AsyncInitializer.async_apply_to c fuel b i init s with
          | error e =>
            rw [hr] at heq
            cases heq
          | ok s1 =>
            rw [hr] at heq
            have hsh := sh_async_apply_to c fuel b i init s
            rw [hr] at hsh
            have hb1 : b < s1.applied.length := by
              rw [show s1.applied.length = s.applied.length from hsh.1]
              exact hb
            rcases List.mem_cons.mp hp with hph | hpt
            · have hset := afl_async_apply_to c fuel b i init s hb
                (hidx (i, init) (List.mem_cons_self _ _))
              rw [hr] at hset
              have hres := fm_initBlockAux c fuel b wa rest s1 s' heq b i hset
              rw [hph]
              exact hres
            · exact ih s1 s' heq hu'
                (fun q hq => hasy q (List.mem_cons_of_mem _ hq)) hb1
                (fun q hq => by
                  rw [show (s1.applied.getD b []).length = (s.applied.getD b []).length
                    from hsh.2 b]
                  exact hidx q (List.mem_cons_of_mem _ hq)) p hpt
        · next hwa =>
          exact absurd (hasy (i, init) (List.mem_cons_self _ _) hia) hwa
      · have hsh := sh_apply_to c fuel b i init s
        have hb1 : b < (SyncInitializer.apply_to c fuel b i init s).applied.length := by
          rw [hsh.1]
          exact hb
        rcases List.mem_cons.mp hp with hph | hpt
        · have hset := afl_apply_to c fuel b i init s hb
            (hidx (i, init) (List.mem_cons_self _ _))
          have hres := fm_initBlockAux c fuel b wa rest _ s' heq b i hset
          rw [hph]
          exact hres
        · exact ih _ s' heq hu'
            (fun q hq => hasy q (List.mem_cons_of_mem _ hq)) hb1
            (fun q hq => by
              rw [hsh.2 b]
              exact hidx q (List.mem_cons_of_mem _ hq)) p hpt

/-- A block still uninitialized after its full initialization has every
strategy marked applied. -/
theorem core_all_applied (c : RCircuit) (fuel b : Nat) (wa : Bool) (s s' : RState)
    (heq : Circuit.initBlockCore c fuel b wa s = .ok s')
    (hu' : BlockOrFormula.is_undef b s' = true)
    (hasy : ∀ p ∈ (c.inits b).enum, p.2.isAsync = true → wa = true)
    (hb : b < s.applied.length)
    (hidx : ∀ p ∈ (c.inits b).enum, p.1 < (s.applied.getD b []).length) :
    ∀ p ∈ (c.inits b).enum, (s'.applied.getD b []).getD p.1 false = true := by
  unfold Circuit.initBlockCore at heq
  cases hr : Circuit.initBlockAux c fuel b wa (c.inits b).enum s with
  | error e =>
    rw [hr] at heq
    cases heq
  | ok s1 =>
    rw [hr] at heq
    dsimp only at heq
    by_cases hc : BlockOrFormula.is_undef b s1 = true
    · rw [if_pos hc] at heq
      have hflags := aux_all_applied c fuel b wa (c.inits b).enum s s1 hr hc hasy hb hidx
      intro p hp
      exact fm_rz_init_default c fuel b s1 s' heq b p.1 (hflags p hp)
    · rw [if_neg hc] at heq
      cases heq
      exact absurd hu' hc

/-- After an initialization pass, a listed block that is still
uninitialized has every strategy marked applied. -/
theorem list_all_applied (c : RCircuit) (fuel : Nat) (wa : Bool) :
    ∀ (ids : List Nat) (s s' : RState) (b : Nat),
      Circuit.initList c fuel wa ids s = .ok s' →
      b ∈ ids →
      BlockOrFormula.is_undef b s' = true →
      (∀ p ∈ (c.inits b).enum, p.2.isAsync = true → wa = true) →
      b < s.applied.length →
      (∀ p ∈ (c.inits b).enum, p.1 < (s.applied.getD b []).length) →
      ∀ p ∈ (c.inits b).enum, (s'.applied.getD b []).getD p.1 false = true := by
  intro ids
  induction ids with
  | nil => intro s s' b _ hb; cases hb
  | cons u us ih =>
    intro s s' b heq hmem hu' hasy hb hidx
    simp only [Circuit.initList] at heq
    cases hr : Circuit.initBlockCore c fuel u wa s with
    | error e =>
      rw [hr] at heq
      cases heq
    | ok s1 =>
      rw [hr] at heq
      dsimp only at heq
      have hsh := sh_initBlockCore c fuel u wa s
      rw [hr] at hsh
      by_cases hbu : b = u
      · subst hbu
        have hu1 : BlockOrFormula.is_undef b s1 = true := by
          unfold BlockOrFormula.is_undef
          have := od_initList c fuel wa us s1 b (by
            rw [heq]
            unfold BlockOrFormula.is_undef at hu'
            simpa using hu')
          simpa using this
        have hflags := core_all_applied c fuel b wa s s1 hr hu1 hasy hb hidx
        intro p hp
        exact fm_initList c fuel wa us s1 s' heq b p.1 (hflags p hp)
      · have hmem' : b ∈ us := by
          rcases List.mem_cons.mp hmem with h | h
          · exact absurd h hbu
          · exact h
        exact ih s1 s' b heq hmem' hu' hasy
          (by rw [show s1.applied.length = s.applied.length from hsh.1]; exact hb)
          (fun q hq => by
            rw [show (s1.applied.getD b []).length = (s.applied.getD b []).length
              from hsh.2 b]
            exact hidx q hq)

/-- After both initialization passes, a block that is still uninitialized
has every one of its strategies marked applied: initialization was
attempted for all blocks before the final check. -/
theorem passes_all_applied (c : RCircuit) (fuel : Nat) (ids : List Nat) (s s1 : RState)
    (b : Nat) (heq : Circuit.initPasses c fuel ids s = .ok s1)
    (hmem : b ∈ ids) (hu1 : BlockOrFormula.is_undef b s1 = true)
    (hb : b < s.applied.length)
    (hidx : ∀ p ∈ (c.inits b).enum, p.1 < (s.applied.getD b []).length) :
    ∀ p ∈ (c.inits b).enum, (s1.applied.getD b []).getD p.1 false = true := by
  have h1 : s1.out.getD b none = none := by
    unfold BlockOrFormula.is_undef at hu1
    simpa using hu1
  unfold Circuit.initPasses at heq
  dsimp only at heq
  cases hr : Circuit.initList c fuel false
      (List.filter (fun u => !(c.inits u).any RInit.isAsync)
        (List.filter (fun u => BlockOrFormula.is_undef u s) ids)) s with
  | error e =>
    rw [hr] at heq
    cases heq
  | ok smid =>
    rw [hr] at heq
    dsimp only at heq
    have hmid : smid.out.getD b none = none :=
      od_initList c fuel true _ smid b (by rw [heq]; exact h1)
    have hs : s.out.getD b none = none :=
      od_initList c fuel false _ s b (by rw [hr]; exact hmid)
    have hus : BlockOrFormula.is_undef b s = true := by
      unfold BlockOrFormula.is_undef
      rw [hs]
      rfl
    have humid : BlockOrFormula.is_undef b smid = true := by
      unfold BlockOrFormula.is_undef
      rw [hmid]
      rfl
    have hmem0 : b ∈ List.filter (fun u => BlockOrFormula.is_undef u s) ids :=
      List.mem_filter.mpr ⟨hmem, hus⟩
    have hsh := sh_initList c fuel false
      (List.filter (fun u => !(c.inits u).any RInit.isAsync)
        (List.filter (fun u => BlockOrFormula.is_undef u s) ids)) s
    rw [hr] at hsh
    by_cases hany : (c.inits b).any RInit.isAsync = true
    · have hmem2 : b ∈ List.filter (fun u => (c.inits u).any RInit.isAsync)
          (List.filter (fun u => BlockOrFormula.is_undef u s) ids) :=
        List.mem_filter.mpr ⟨hmem0, hany⟩
      exact list_all_applied c fuel true _ smid s1 b heq hmem2 hu1
        (fun p _ _ => rfl)
        (by rw [show smid.applied.length = s.applied.length from hsh.1]; exact hb)
        (fun p hp => by
          rw [show (smid.applied.getD b []).length = (s.applied.getD b []).length
            from hsh.2 b]
          exact hidx p hp)
    · have hany' : (c.inits b).any RInit.isAsync = false := by
        rcases Bool.eq_false_or_eq_true ((c.inits b).any RInit.isAsync) with h | h
        · exact absurd h hany
        · exact h
      have hmem1 : b ∈ List.filter (fun u => !(c.inits u).any RInit.isAsync)
          (List.filter (fun u => BlockOrFormula.is_undef u s) ids) :=
        List.mem_filter.mpr ⟨hmem0, by rw [hany']; rfl⟩
      have hflags := list_all_applied c fuel false _ s smid b hr hmem1 humid
        (fun p hp hpa =>
          absurd (List.any_eq_true.mpr ⟨p.2, snd_mem_of_mem_enumFrom _ 0 p hp, hpa⟩)
            (by rw [hany']; exact Bool.false_ne_true))
        hb hidx
      intro p hp
      exact fm_initList c fuel true _ smid s1 heq b p.1 (hflags p hp)

/-- The error carried by a state-only result, if any. -/
def resultErrU : Except (RErr × RState) RState → Option RErr
  | .error (e, _) => some e
  | .ok _ => none

/-- C6 (amended): the not-initialized error is raised only by the final
check, which runs strictly after both initialization passes over all
Blocks — in the error state every still-uninitialized block has all of its
initializer strategies marked applied (so no block was skipped because an
earlier one failed) — and the error names the first block, in list order,
still missing a value (not every such block). -/
theorem claim_C6_final_check :
    (∀ (c : RCircuit) (fuel : Nat) (ids : List Nat) (s s1 : RState) (b0 : Nat),
      Circuit.initPasses c fuel ids s = .ok s1 →
      ids.find? (fun b => BlockOrFormula.is_undef b s1) = some b0 →
      Circuit.initBlocks c fuel ids s = .error (.notInitializedErr (c.bname b0), s1)
      ∧ BlockOrFormula.is_undef b0 s1 = true)
    ∧ (∀ (c : RCircuit) (fuel : Nat) (ids : List Nat) (s s1 : RState),
      Circuit.initPasses c fuel ids s = .ok s1 →
      ids.find? (fun b => BlockOrFormula.is_undef b s1) = none →
      Circuit.initBlocks c fuel ids s = .ok s1)
    ∧ (∀ (c : RCircuit) (fuel : Nat) (ids : List Nat) (s s1 : RState) (b : Nat),
      Circuit.initPasses c fuel ids s = .ok s1 →
      b ∈ ids →
      BlockOrFormula.is_undef b s1 = true →
      b < s.applied.length →
      (∀ p ∈ (c.inits b).enum, p.1 < (s.applied.getD b []).length) →
      ∀ p ∈ (c.inits b).enum, (s1.applied.getD b []).getD p.1 false = true) := by
  refine ⟨fun c fuel ids s s1 b0 hpass hfind =>
      ⟨?_, by have h := List.find?_some hfind; exact h⟩,
    fun c fuel ids s s1 hpass hfind => ?_,
    fun c fuel ids s s1 b hpass hmem hu1 hb hidx =>
      passes_all_applied c fuel ids s s1 b hpass hmem hu1 hb hidx⟩
  · unfold Circuit.initBlocks
    rw [hpass]
    dsimp only
    rw [hfind]
  · unfold Circuit.initBlocks
    rw [hpass]
    dsimp only
    rw [hfind]

/-- C6 counterexample: with two all-failing blocks `x` and `y`, the raised
error names only `x` even though `y` is also still uninitialized (its
initializers were attempted, as its applied flags show), contradicting the
claim that the error names every Block still missing a value. -/
theorem claim_C6_counterexample :
    resultErrU (Circuit.initBlocks twoFailC 5 [0, 1] twoFailS)
      = some (.notInitializedErr "x")
    ∧ (resultStateU (Circuit.initBlocks twoFailC 5 [0, 1] twoFailS)).out.getD 1 none
      = none
    ∧ twoFailC.bname 1 = "y"
    ∧ "y" ≠ "x"
    ∧ (resultStateU (Circuit.initBlocks twoFailC 5 [0, 1] twoFailS)).applied
      = [[true], [true]] :=
  ⟨by decide, by decide, by decide, by decide, by decide⟩

/-- Witness for C6 on the concrete two-block circuit. -/
theorem claim_C6_witness :
    (Circuit.initPasses twoFailC 5 [0, 1] twoFailS
        = .ok (resultStateU (Circuit.initPasses twoFailC 5 [0, 1] twoFailS))
      ∧ [0, 1].find? (fun b => BlockOrFormula.is_undef b
          (resultStateU (Circuit.initPasses twoFailC 5 [0, 1] twoFailS))) = some 0
      ∧ Circuit.initBlocks twoFailC 5 [0, 1] twoFailS
          = .error (.notInitializedErr (twoFailC.bname 0),
              resultStateU (Circuit.initPasses twoFailC 5 [0, 1] twoFailS)))
    ∧ (∀ p ∈ (twoFailC.inits 1).enum,
        ((resultStateU (Circuit.initPasses twoFailC 5 [0, 1] twoFailS)).applied.getD
          1 []).getD p.1 false = true) :=
  ⟨⟨rfl, by decide,
    (claim_C6_final_check.1 twoFailC 5 [0, 1] twoFailS
      (resultStateU (Circuit.initPasses twoFailC 5 [0, 1] twoFailS)) 0
      rfl (by decide)).1⟩,
   claim_C6_final_check.2.2 twoFailC 5 [0, 1] twoFailS
     (resultStateU (Circuit.initPasses twoFailC 5 [0, 1] twoFailS)) 1
     rfl (by decide) (by decide) (by decide) (by decide)⟩
